import Mathlib

/-!
Verification of the document-manager pipeline (ingest → segment → enrich →
embed → search) against its natural-language specification.

The Python sources under `src/backend/src` are shallowly embedded as
executable Lean definitions: strings are `String` or `List Char`, SQL rows
are structures, database tables are lists of rows, and the LLM/embedding
backend is an explicit parameter (a function from the request to the
response), so every code path is a total function that can be evaluated on
concrete inputs.  SHA-256 content hashes are modelled as the hashed text
itself (a collision-free abstraction: the code only ever compares hashes
for equality).
-/

namespace DocMgr

/-! ## Python string primitives shared by several modules -/

/-- Characters that Python's `str.split()` / `str.strip()` / the regex class
`\s` treat as whitespace (ASCII range). -/
def pyIsSpace (c : Char) : Bool :=
  c = ' ' ∨ c = '\t' ∨ c = '\n' ∨ c = '\r' ∨ c = '\x0b' ∨ c = '\x0c'

/-- Python `str.strip()` on a character list. -/
def pyStrip (l : List Char) : List Char :=
  ((l.dropWhile pyIsSpace).reverse.dropWhile pyIsSpace).reverse

/-- Python `str.split()` with no separator: split on whitespace runs,
dropping empty pieces. -/
def pyWords (s : String) : List String :=
  (s.split (fun c => pyIsSpace c)).filter (fun w => w ≠ "")

/-! ## enrich/enrich_entries.py — quality score (claim C9) -/

/-- Metadata object returned by `generate_json` for one chunk.  Python reads
the dict with `metadata.get(...)`; a missing or `None` string field is
modelled as `none` / `""` (the code only ever tests truthiness, which
identifies the two). -/
structure LLMMetadata where
  title : String
  author : Option String
  created_hint : Option String
  tags : List String
  summary : String

/-- Python truthiness of an optional string (`None` and `""` are falsy). -/
def optTruthy : Option String → Bool
  | none => false
  | some s => !s.isEmpty

/-- Title rubric block of `calculate_quality_score` (0-20 points). -/
def titlePoints (md : LLMMetadata) : ℕ :=
  if md.title ≠ "" then
    5 + (if md.title.length > 10 then 5 else 0)
      + (if md.title.length < 100 then 5 else 0)
      + (if ¬ (md.title.toLower.startsWith "untitled") then 5 else 0)
  else 0

/-- Summary rubric block of `calculate_quality_score` (0-30 points):
length of the summary in words, plus lexical overlap between the summary
and the first 100 words of the chunk text. -/
def summaryPoints (entryText : String) (md : LLMMetadata) : ℕ :=
  if md.summary ≠ "" then
    let wordCount := (pyWords md.summary).length
    let textWords := ((pyWords entryText.toLower).take 100).dedup
    let summaryWords := (pyWords md.summary.toLower).dedup
    let overlap := (textWords.filter (fun w => w ∈ summaryWords)).length
    10 + (if wordCount ≥ 20 then 10 else 0)
       + (if wordCount ≤ 100 then 5 else 0)
       + (if overlap > 5 then 5 else 0)
  else 0

/-- Tags considered generic by `calculate_quality_score`. -/
def genericTags : List String :=
  ["text", "document", "content", "file", "data", "unknown"]

/-- Tags rubric block of `calculate_quality_score` (0-25 points). -/
def tagsPoints (md : LLMMetadata) : ℕ :=
  if md.tags ≠ [] then
    let qualityTags := md.tags.filter (fun t => ¬ (t.toLower ∈ genericTags))
    10 + (if 2 ≤ md.tags.length ∧ md.tags.length ≤ 7 then 10 else 0)
       + (if qualityTags.length ≥ 2 then 5 else 0)
  else 0

/-- Author rubric block (0-15 points). -/
def authorPoints (md : LLMMetadata) : ℕ :=
  if optTruthy md.author then 15 else 0

/-- Date rubric block (0-10 points). -/
def datePoints (md : LLMMetadata) : ℕ :=
  if optTruthy md.created_hint then 10 else 0

/-- Total points awarded by `calculate_quality_score`; the running
`max_score` accumulated by the Python code is always 20+30+25+15+10 = 100. -/
def qualityPoints (entryText : String) (md : LLMMetadata) : ℕ :=
  titlePoints md + summaryPoints entryText md + tagsPoints md
    + authorPoints md + datePoints md

/-- `calculate_quality_score(entry_text, metadata)`: points divided by the
constant `max_score = 100`.  Python's final `round(score / max_score, 2)` is
the identity here because `points / 100` already has exactly two decimal
digits. -/
def calculateQualityScore (entryText : String) (md : LLMMetadata) : ℚ :=
  (qualityPoints entryText md : ℚ) / 100

/-! ## enrich/enrich_entries.py — per-chunk enrichment step (claims C5, C9) -/

/-- `MAX_RETRIES` from enrich_entries.py. -/
def MAX_RETRIES : ℕ := 3

/-- The `extra_meta` JSON blob of a chunk: the keys this module writes.
`needs_review` is only ever written as `True`, so presence of the key is a
boolean. -/
structure ExtraMeta where
  quality_score : Option ℚ := none
  needs_review : Bool := false
  created_hint_raw : Option String := none
deriving DecidableEq

/-- The columns of an `Entry` row that `enrich_entry` reads or writes. -/
structure EnrichEntryState where
  status : String
  retry_count : Option ℕ
  title : Option String
  author : Option String
  summary : Option String
  category : Option String
  tags : List String
  extra_meta : Option ExtraMeta
  embedding : Option (List ℚ)
  entry_text : String

/-- The raw-file row joined to an entry (used for the title/author/category
fallbacks of the success path). -/
structure RawFileInfo where
  filename : String
  path : String

/-- Python `os.path.splitext(name)[0]`: drop the extension after the last
dot of the final path component (no dot → unchanged). -/
def splitextStem (name : String) : String :=
  let cs := name.data
  let revTail := cs.reverse.takeWhile (fun c => c ≠ '.' ∧ c ≠ '/')
  if revTail.length = cs.length then name
  else if cs.reverse.get? revTail.length = some '.' then
    ⟨(cs.reverse.drop (revTail.length + 1)).reverse⟩
  else name

/-- `CATEGORY_FOLDERS` from enrich_entries.py. -/
def CATEGORY_FOLDERS : List String :=
  ["scifi", "sci-fi", "fantasy", "romance", "horror", "mystery",
   "thriller", "drama", "comedy", "adventure", "historical",
   "erotica", "fiction", "nonfiction", "poetry", "essay"]

/-- Python `str.title()` restricted to what the code needs: upper-case a
letter that starts an alphabetic run, lower-case the rest. -/
def pyTitleCase (s : String) : String :=
  let step : Bool × List Char → Char → Bool × List Char := fun st c =>
    let prevAlpha := st.1
    let out := st.2
    if c.isAlpha then
      (true, (if prevAlpha then c.toLower else c.toUpper) :: out)
    else (false, c :: out)
  ⟨((s.data.foldl step (false, [])).2).reverse⟩

/-- `extract_category_from_path`: look for a known category folder in the
path, else the folder right after a `stories`/`story`/`docs`/`archive`
component. -/
def extractCategoryFromPath (path : String) : Option String :=
  let p := (path.replace "\\" "/").toLower
  let parts := p.splitOn "/"
  match parts.find? (fun part => part ∈ CATEGORY_FOLDERS) with
  | some part => some (pyTitleCase part)
  | none =>
    let idxs := (parts.enum.filter
      (fun q => q.2 ∈ ["stories", "story", "docs", "archive"]
        ∧ q.1 + 1 < parts.length)).filter
      (fun q =>
        let cand := parts.getD (q.1 + 1) ""
        ¬ (cand ∈ ["authors", "files", "data"]) ∧ cand.length > 2)
    match idxs.head? with
    | some q => some (pyTitleCase (parts.getD (q.1 + 1) ""))
    | none => none

/-- Author fallback of the success path: the path component right after an
`authors` directory, unless it equals the filename. -/
def authorFromPath (rf : RawFileInfo) : Option String :=
  let parts := (rf.path.replace "\\" "/").splitOn "/"
  match (parts.enum.find? (fun q => q.2 = "authors")) with
  | some q =>
    if q.1 + 1 < parts.length then
      let cand := parts.getD (q.1 + 1) ""
      if cand ≠ rf.filename then some cand else none
    else none
  | none => none

/-- One call of `enrich_entry` on an entry: `metadata = none` models a
failed `generate_json` call (the failure branch increments `retry_count`
and flips the status to `error` at `MAX_RETRIES`); `metadata = some md`
models the success branch (metadata fill-in with fallbacks, quality score,
`needs_review` flag, status `enriched`, embedding cleared). -/
def enrichEntryStep (e : EnrichEntryState) (rf : Option RawFileInfo)
    (metadata : Option LLMMetadata) : EnrichEntryState :=
  match metadata with
  | none =>
    let rc := e.retry_count.getD 0 + 1
    { e with
      retry_count := some rc
      status := if rc ≥ MAX_RETRIES then "error" else e.status }
  | some md =>
    let title0 : Option String := if md.title ≠ "" then some md.title else none
    let title : Option String :=
      if ¬ optTruthy title0 then
        match rf with
        | some r => some (splitextStem r.filename)
        | none => title0
      else title0
    let author : Option String :=
      if ¬ optTruthy md.author then
        match rf with
        | some r => (authorFromPath r).elim md.author some
        | none => md.author
      else md.author
    let category : Option String :=
      match rf with
      | some r => extractCategoryFromPath r.path
      | none => e.category
    let q := calculateQualityScore e.entry_text md
    let em0 := (e.extra_meta.getD {}) |>
      (fun em => if optTruthy md.created_hint
        then { em with created_hint_raw := md.created_hint } else em)
    let em1 := { em0 with quality_score := some q }
    let em2 := if q < 2/5 then { em1 with needs_review := true } else em1
    { e with
      title := title
      author := author
      category := category
      summary := some md.summary
      tags := md.tags
      status := "enriched"
      extra_meta := some em2
      embedding := none }

/-- The filter of the enrichment batch query in `main`:
`status == 'pending' AND (retry_count IS NULL OR retry_count < MAX_RETRIES)`. -/
def enrichBatchFilter (e : EnrichEntryState) : Bool :=
  e.status = "pending" ∧ (e.retry_count = none ∨ e.retry_count.getD 0 < MAX_RETRIES)

/-- Retry counter with SQL NULL read as 0 (`entry.retry_count or 0`). -/
def rcVal (e : EnrichEntryState) : ℕ := e.retry_count.getD 0

/-- Concrete metadata object used to instantiate universally quantified
theorems. -/
def mdSample : LLMMetadata :=
  { title := "A sample title", author := some "A. Author",
    created_hint := some "2020-01-01", tags := ["alpha", "beta"],
    summary := "A short summary." }

/-- Concrete freshly segmented entry (as `segment_file` creates it:
`status='pending'`, counters and metadata unset). -/
def entrySample : EnrichEntryState :=
  { status := "pending", retry_count := none, title := none, author := none,
    summary := none, category := none, tags := [], extra_meta := none,
    embedding := none, entry_text := "A short summary of something." }

/-! ## rag/search.py — Reciprocal Rank Fusion (claim C2)

`search_docs_stage1` and `search_chunks_stage2` run SQL of the same shape:
two ranked CTEs (vector order, keyword order) are FULL-OUTER-joined on the
row id and scored with `0.7/(60+vector_rank) + 0.3/(60+keyword_rank)`,
COALESCEing a missing rank to 99999.  The ordering of rows by embedding
distance / `ts_rank_cd` is done by the database, so the embedding takes the
two already-ordered id lists as input. -/

/-- Sentinel rank used by `COALESCE(rank, 99999)` in both stages. -/
def RRF_SENTINEL : ℕ := 99999

/-- `COALESCE(rank, 99999)`. -/
def rrfCoalesce (r : Option ℕ) : ℕ := r.getD RRF_SENTINEL

/-- The RRF score of the SQL `rrf_scores` / `rrf_combined` CTEs:
`(0.7 / (60.0 + COALESCE(vector_rank, 99999))) +
 (0.3 / (60.0 + COALESCE(keyword_rank, 99999)))`. -/
def rrfScore (vr kr : Option ℕ) : ℚ :=
  (7/10) / (60 + (rrfCoalesce vr : ℚ)) + (3/10) / (60 + (rrfCoalesce kr : ℚ))

/-- `ROW_NUMBER() OVER (ORDER BY ...)` starting at `n`: pair each id of the
ordered list with its 1-based rank. -/
def rankFrom (n : ℕ) : List ℕ → List (ℕ × ℕ)
  | [] => []
  | id :: rest => (id, n) :: rankFrom (n + 1) rest

/-- Ranked CTE without a LIMIT (stage 2's `vector_ranked`/`keyword_ranked`). -/
def rankAll (ids : List ℕ) : List (ℕ × ℕ) := rankFrom 1 ids

/-- Ranked CTE with `LIMIT cap` (stage 1's `doc_vector`/`doc_keyword` use
`cap = 100`). -/
def rankTop (cap : ℕ) (ids : List ℕ) : List (ℕ × ℕ) := rankFrom 1 (ids.take cap)

/-- Rank of an id in a ranked list (`none` when the id is absent — the SQL
NULL produced by the outer join). -/
def rankOf (ranked : List (ℕ × ℕ)) (id : ℕ) : Option ℕ :=
  (ranked.find? (fun p => p.1 = id)).map (fun p => p.2)

/-- One output row of the RRF-combining CTE. -/
structure RRFRow where
  id : ℕ
  vector_rank : Option ℕ
  keyword_rank : Option ℕ
  rrf_score : ℚ
deriving DecidableEq

/-- `FROM v FULL OUTER JOIN k ON v.id = k.id` with the RRF score column:
every row of `v` joined against its match in `k`, then the rows of `k`
without a match in `v`. -/
def rrfFullOuterJoin (v k : List (ℕ × ℕ)) : List RRFRow :=
  v.map (fun p =>
    { id := p.1, vector_rank := some p.2, keyword_rank := rankOf k p.1,
      rrf_score := rrfScore (some p.2) (rankOf k p.1) })
  ++ (k.filter (fun p => rankOf v p.1 = none)).map (fun p =>
    { id := p.1, vector_rank := none, keyword_rank := some p.2,
      rrf_score := rrfScore none (some p.2) })

/-- The `rrf_scores` CTE of `search_docs_stage1`: both input lists capped at
the top 100 (`LIMIT 100` in `doc_vector` and `doc_keyword`).  The final
SELECT then orders by `rrf_score DESC` and applies the stage-1 limit. -/
def searchDocsStage1Scores (vecOrder kwOrder : List ℕ) : List RRFRow :=
  rrfFullOuterJoin (rankTop 100 vecOrder) (rankTop 100 kwOrder)

/-- The `rrf_combined` CTE of `search_chunks_stage2`: the two ranked CTEs
carry no LIMIT, so every chunk of the selected documents is ranked
(`vector_ranked` is restricted to chunks with an embedding; that
restriction is part of how `vecOrder` is produced). -/
def searchChunksStage2Scores (vecOrder kwOrder : List ℕ) : List RRFRow :=
  rrfFullOuterJoin (rankAll vecOrder) (rankAll kwOrder)

/-- Modelled from the spec: claim C2 reads both retrieval stages as ranking
only "the top-100" candidates per list; this is stage 2 as those words
describe it, with the same top-100 cap as stage 1, for comparison with
`searchChunksStage2Scores` (which has no cap in the source). -/
def searchChunksStage2ScoresTop100Claim (vecOrder kwOrder : List ℕ) : List RRFRow :=
  rrfFullOuterJoin (rankTop 100 vecOrder) (rankTop 100 kwOrder)

/-! ## llm_client.py — Ollama embedding retry loop (claim C8) -/

/-- `EMBEDDING_MAX_CHARS` default. -/
def EMBEDDING_MAX_CHARS : ℕ := 8000

/-- `EMBEDDING_RETRY_BASE_DELAY_S` default (0.25 s). -/
def EMBEDDING_RETRY_BASE_DELAY_S : ℚ := 1/4

/-- `_sanitize_embedding_prompt`: coerce to a string (already one here),
drop NUL characters, truncate to `max_chars` when that cap is positive. -/
def sanitizeEmbeddingPrompt (text : List Char) (maxChars : ℕ) : List Char :=
  let t := text.filter (fun c => c ≠ '\x00')
  if maxChars > 0 ∧ t.length > maxChars then t.take maxChars else t

/-- Outcome of one POST to `/api/embeddings` as `_ollama_embed` observes it:
a 2xx response (whose JSON may or may not contain an `embedding` key), an
HTTP error with a status code and response body, or a transport error. -/
inductive OllamaEmbedResponse where
  | success (embedding : Option (List ℚ))
  | httpError (status : Option ℕ) (body : Option String)
  | requestError
deriving DecidableEq

/-- Python's substring test `pat in l`. -/
def containsSub (pat : List Char) : List Char → Bool
  | [] => pat.isEmpty
  | c :: rest => pat.isPrefixOf (c :: rest) || containsSub pat rest

/-- `_looks_like_context_length_error`: the lowered response body contains
"context length" or "input length exceeds". -/
def looksLikeContextLengthError : Option String → Bool
  | none => false
  | some body =>
    containsSub "context length".data (body.data.map Char.toLower)
      || containsSub "input length exceeds".data (body.data.map Char.toLower)

/-- The per-call record of an `_ollama_embed` run: final return value, the
prompt length sent on each attempt, and the `time.sleep` durations between
attempts. -/
structure EmbedAttemptTrace where
  result : Option (List ℚ)
  promptLens : List ℕ
  delays : List ℚ
deriving DecidableEq

/-- The `for attempt in range(1, max(1, EMBEDDING_RETRY_ATTEMPTS) + 1)` loop
of `_ollama_embed`.  `A` is `EMBEDDING_RETRY_ATTEMPTS`; the backend is a
function of the attempt number and the prompt sent.  On a 500/400/413
response whose body indicates a context-length problem (and with attempts
remaining) the prompt is re-sanitized to half its length and the loop
sleeps `EMBEDDING_RETRY_BASE_DELAY_S * attempt`; on a transport error the
prompt is kept; any other failure returns `None`.  The fuel argument counts
the remaining loop iterations (`ollamaEmbed` passes `max 1 A`, which the
loop can never exhaust mid-retry). -/
def ollamaEmbedGo (A : ℕ) (backend : ℕ → List Char → OllamaEmbedResponse) :
    ℕ → ℕ → List Char → EmbedAttemptTrace
  | 0, _, _ => { result := none, promptLens := [], delays := [] }
  | fuel + 1, attempt, prompt =>
    match backend attempt prompt with
    | .success emb => { result := emb, promptLens := [prompt.length], delays := [] }
    | .httpError status body =>
      if (status = some 500 ∨ status = some 400 ∨ status = some 413)
          ∧ looksLikeContextLengthError body ∧ attempt < A then
        let next := sanitizeEmbeddingPrompt prompt (max 1 (prompt.length / 2))
        let rest := ollamaEmbedGo A backend fuel (attempt + 1) next
        { result := rest.result
          promptLens := prompt.length :: rest.promptLens
          delays := EMBEDDING_RETRY_BASE_DELAY_S * attempt :: rest.delays }
      else { result := none, promptLens := [prompt.length], delays := [] }
    | .requestError =>
      if attempt < A then
        let rest := ollamaEmbedGo A backend fuel (attempt + 1) prompt
        { result := rest.result
          promptLens := prompt.length :: rest.promptLens
          delays := EMBEDDING_RETRY_BASE_DELAY_S * attempt :: rest.delays }
      else { result := none, promptLens := [prompt.length], delays := [] }

/-- `_ollama_embed(text)`: sanitize/truncate the input to
`EMBEDDING_MAX_CHARS`, then run the bounded retry loop. -/
def ollamaEmbed (A : ℕ) (backend : ℕ → List Char → OllamaEmbedResponse)
    (text : List Char) : EmbedAttemptTrace :=
  ollamaEmbedGo A backend (max 1 A) 1
    (sanitizeEmbeddingPrompt text EMBEDDING_MAX_CHARS)

/-- An embedding backend whose response never carries a vector. -/
def OllamaEmbedResponse.isFailure : OllamaEmbedResponse → Prop
  | .success _ => False
  | .httpError _ _ => True
  | .requestError => True

/-- Geometric ("exponential backoff") delay sequences: consecutive ratios
agree, i.e. `d(i+1)² = d(i) * d(i+2)`. -/
def IsGeometricBackoff (l : List ℚ) : Prop :=
  ∀ i < l.length, i + 2 < l.length →
    l.getD (i + 1) 0 * l.getD (i + 1) 0 = l.getD i 0 * l.getD (i + 2) 0

/-- A backend that always answers 500 with a context-length error body. -/
def alwaysContextLengthBackend : ℕ → List Char → OllamaEmbedResponse :=
  fun _ _ => .httpError (some 500) (some "Error: the input length exceeds the context length")

/-! ## rag/search.py — two-stage search and its embedding-failure path
(claim C1) -/

/-- Search mode constants from rag/search.py. -/
def SEARCH_MODE_VECTOR : String := "vector"

/-- Keyword mode constant. -/
def SEARCH_MODE_KEYWORD : String := "keyword"

/-- Hybrid mode constant. -/
def SEARCH_MODE_HYBRID : String := "hybrid"

/-- One row of the stage-1 result (`search_docs_stage1` output dicts). -/
structure DocHit where
  doc_id : ℕ
  vector_score : ℚ
  keyword_score : ℚ
  combined_score : ℚ
deriving DecidableEq

/-- The external dependencies of the search functions: the embedding
backend and the SQL queries (each query is a function from its bind
parameters to the ordered id list / rows the database returns).  Entry
results are represented by entry ids in ranked order. -/
structure SearchEnv where
  embedQuery : String → Option (List ℚ)
  stage1Rows : String → List ℚ → ℕ → List DocHit
  stage2Entries : String → List ℚ → List ℕ → ℕ → List ℕ
  keywordOnly : String → ℕ → List ℕ
  hybridRows : String → List ℚ → ℕ → List ℕ
  vectorRows : String → List ℚ → ℕ → List ℕ

/-- The keyword-only branch of `search_entries_semantic`: fetch `k*2`
keyword hits, keep the first `k` (they are already in keyword-rank
order). -/
def searchKeywordMode (env : SearchEnv) (query : String) (k : ℕ) : List ℕ :=
  (env.keywordOnly query (k * 2)).take k

/-- `search_entries_semantic(db, query, k, filters, mode)`.  The recursive
call the Python code makes after an embedding failure in hybrid mode goes
straight to the keyword branch, embedded here as `searchKeywordMode` (used
for the direct keyword mode as well). -/
def searchEntriesSemantic (env : SearchEnv) (query : String) (k : ℕ)
    (mode : String) : List ℕ :=
  if mode = SEARCH_MODE_KEYWORD then searchKeywordMode env query k
  else
    match env.embedQuery query with
    | none =>
      if mode = SEARCH_MODE_HYBRID then searchKeywordMode env query k else []
    | some emb =>
      if mode = SEARCH_MODE_VECTOR then env.vectorRows query emb k
      else env.hybridRows query emb k

/-- What `search_two_stage` returns: the entry list, the doc-level matches
(as ids), and the stats fields the claims are about. -/
structure TwoStageResult where
  entries : List ℕ
  docs : List ℕ
  statsError : Option String
  statsMode : Option String
deriving DecidableEq

/-- `search_two_stage(db, query, k, filters, stage1_docs)`: embed the query
(an embedding failure returns the empty result with
`stats = {"error": "embedding_failed"}`); otherwise run stage 1, fall back
to the single-stage hybrid search when stage 1 finds no documents, else run
stage 2 within the stage-1 documents. -/
def searchTwoStage (env : SearchEnv) (query : String) (k : ℕ)
    (stage1Docs : ℕ) : TwoStageResult :=
  match env.embedQuery query with
  | none =>
    { entries := [], docs := [], statsError := some "embedding_failed",
      statsMode := none }
  | some emb =>
    let docResults := env.stage1Rows query emb stage1Docs
    if docResults = [] then
      { entries := searchEntriesSemantic env query k SEARCH_MODE_HYBRID
        docs := []
        statsError := none
        statsMode := some "fallback_chunk" }
    else
      let docIds := docResults.map (fun d => d.doc_id)
      { entries := env.stage2Entries query emb docIds k
        docs := docIds
        statsError := none
        statsMode := some "two_stage" }

/-- Concrete environment whose embedding backend is down but whose archive
has a keyword match (entry id 7). -/
def downEmbedderEnv : SearchEnv :=
  { embedQuery := fun _ => none
    stage1Rows := fun _ _ _ => []
    stage2Entries := fun _ _ _ _ => []
    keywordOnly := fun _ _ => [7]
    hybridRows := fun _ _ _ => []
    vectorRows := fun _ _ _ => [] }

/-! ## ingest/ingest_files.py (claims C6, C7)

The filesystem walk hands `ingest_file` one file at a time.  File bytes are
abstracted to a content identifier: `compute_sha256` is injective on
contents, so the hash is modelled as the content itself.  Extraction
(`extract_file_content`, an external collaborator with contract
`extract(path, ext) -> (text, file_type, metadata)`) is a parameter,
deterministic in the content.  Image-specific columns (ocr_text, image
dimensions, thumbnails) and series detection are side outputs of external
helpers not touched by any claim and are not carried in the row model. -/

/-- A file on disk as the walk sees it (`stat` plus bytes). -/
structure FsFile where
  path : String
  mtime : ℕ
  size : ℕ
  content : ℕ
deriving DecidableEq

/-- Result of `extract_file_content`. -/
structure ExtractResult where
  text : String
  fileType : String
deriving DecidableEq

/-- The columns of a `raw_files` row that `ingest_file` reads or writes. -/
structure RawFileRec where
  path : String
  filename : String
  extension : String
  size_bytes : ℕ
  mtime : ℕ
  sha256 : ℕ
  raw_text : String
  status : String
  file_type : String
deriving DecidableEq

/-- `Path.name`: the component after the last slash. -/
def pathName (p : String) : String :=
  ⟨(p.data.reverse.takeWhile (fun c => c ≠ '/')).reverse⟩

/-- `Path.suffix.lower()`: the final extension (with dot) of the last path
component, lower-cased; empty when the name has no dot or only a leading
dot. -/
def pathSuffixLower (p : String) : String :=
  let n := (pathName p).data
  let revTail := n.reverse.takeWhile (fun c => c ≠ '.')
  if revTail.length + 1 < n.length then
    ⟨('.' :: revTail.reverse).map Char.toLower⟩
  else ""

/-- One value of the in-memory `path_cache` dict.  Entries hydrated from
the database carry the stored status; entries the main loop adds after a
new/updated file carry no `status` key (`none`). -/
structure CacheEntry where
  mtime : ℕ
  size : ℕ
  status : Option String
deriving DecidableEq

/-- `db.query(RawFile).filter(RawFile.path == p).first()`. -/
def dbFindByPath (db : List RawFileRec) (p : String) : Option RawFileRec :=
  db.find? (fun r => r.path = p)

/-- `db.query(RawFile).filter(RawFile.sha256 == s).first()`. -/
def dbFindBySha (db : List RawFileRec) (s : ℕ) : Option RawFileRec :=
  db.find? (fun r => r.sha256 = s)

/-- In-place SQLAlchemy mutation of a fetched row: replace the row in the
table. -/
def dbSet (db : List RawFileRec) (oldRec newRec : RawFileRec) : List RawFileRec :=
  db.map (fun r => if r = oldRec then newRec else r)

/-- `status = "ok"` or `"extract_failed"` from the extraction result:
failed when no text came back and the file is not an image. -/
def statusOfExtract (er : ExtractResult) : String :=
  if er.text = "" ∧ er.fileType ≠ "image" then "extract_failed" else "ok"

/-- The fresh row `ingest_file` inserts for a truly new file. -/
def toRec (extract : ℕ → ExtractResult) (f : FsFile) : RawFileRec :=
  { path := f.path
    filename := pathName f.path
    extension := pathSuffixLower f.path
    size_bytes := f.size
    mtime := f.mtime
    sha256 := f.content
    raw_text := (extract f.content).text
    status := statusOfExtract (extract f.content)
    file_type := (extract f.content).fileType }

/-- The fast-path cache check of `ingest_file`: path present with the same
mtime and size, and the cached status (if any) is not `extract_failed`. -/
def cacheSkip (cache : Option (List (String × CacheEntry))) (f : FsFile) : Bool :=
  match cache with
  | some c =>
    match c.find? (fun q => q.1 = f.path) with
    | some (_, ce) =>
      decide (ce.mtime = f.mtime) && decide (ce.size = f.size)
        && decide (ce.status ≠ some "extract_failed")
    | none => false
  | none => false

/-- The second (database) unchanged check of `ingest_file`: a record at the
same path with the same mtime and size whose status is not
`extract_failed`. -/
def pathUnchangedSkip (db : List RawFileRec) (f : FsFile) : Bool :=
  match dbFindByPath db f.path with
  | some r =>
    decide (r.mtime = f.mtime) && decide (r.size_bytes = f.size)
      && decide (r.status ≠ "extract_failed")
  | none => false

/-- The row updates of the `extract_failed` re-extraction branch
(SHA match). -/
def reextractUpdate (extract : ℕ → ExtractResult) (f : FsFile)
    (rSha : RawFileRec) : RawFileRec :=
  let er := extract f.content
  { rSha with
    status := statusOfExtract er,
    path := f.path,
    filename := pathName f.path,
    extension := pathSuffixLower f.path,
    size_bytes := f.size,
    mtime := f.mtime,
    raw_text := er.text,
    file_type := er.fileType }

/-- The path/metadata updates of the plain SHA-match branch (content dedup:
the canonical record is re-pointed at this path). -/
def shaMatchUpdate (f : FsFile) (rSha : RawFileRec) : RawFileRec :=
  { rSha with
    path := f.path,
    filename := pathName f.path,
    extension := pathSuffixLower f.path,
    size_bytes := f.size,
    mtime := f.mtime }

/-- The content-changed updates of the path-match branch. -/
def contentChangedUpdate (extract : ℕ → ExtractResult) (f : FsFile)
    (rPath : RawFileRec) : RawFileRec :=
  let er := extract f.content
  { rPath with
    status := statusOfExtract er,
    sha256 := f.content,
    raw_text := er.text,
    size_bytes := f.size,
    mtime := f.mtime,
    file_type := er.fileType }

/-- `ingest_file(db, file_path, dry_run, path_cache)`: returns the
operation string and the updated table.  Follows the source branch for
branch: fast cache skip (unless the cached status is `extract_failed`),
skip by path+mtime+size (same exception), content-hash dedup (same-path
same-mtime skip, re-extract of `extract_failed` records, else metadata
update re-pointing the canonical record to this path), content-changed
update of the path record, and finally a fresh insert. -/
def ingestFile (extract : ℕ → ExtractResult) (db : List RawFileRec)
    (cache : Option (List (String × CacheEntry))) (f : FsFile)
    (dryRun : Bool) : String × List RawFileRec :=
  if cacheSkip cache f then ("skipped", db)
  else if pathUnchangedSkip db f then ("skipped", db)
  else
    match dbFindBySha db f.content with
    | some rSha =>
      if rSha.path = f.path ∧ rSha.mtime = f.mtime
          ∧ rSha.status ≠ "extract_failed" then ("skipped", db)
      else if dryRun then ("skipped", db)
      else if rSha.status = "extract_failed" then
        ("updated", dbSet db rSha (reextractUpdate extract f rSha))
      else
        ("updated", dbSet db rSha (shaMatchUpdate f rSha))
    | none =>
      match dbFindByPath db f.path with
      | some rPath =>
        if dryRun then ("skipped", db)
        else ("updated", dbSet db rPath (contentChangedUpdate extract f rPath))
      | none =>
        if dryRun then ("skipped", db)
        else ("new", db ++ [toRec extract f])

/-- State threaded through the scan loop of `main`. -/
structure IngestPassState where
  db : List RawFileRec
  cache : List (String × CacheEntry)
  newCount : ℕ
  updatedCount : ℕ
  skippedCount : ℕ
  results : List String
deriving DecidableEq

/-- The path cache hydrated from the database at the start of `main`
(path, mtime, size and status). -/
def cacheFromDb (db : List RawFileRec) : List (String × CacheEntry) :=
  db.map (fun r => (r.path, CacheEntry.mk r.mtime r.size_bytes (some r.status)))

/-- Python dict assignment `path_cache[p] = ce`. -/
def cachePut (cache : List (String × CacheEntry)) (p : String)
    (ce : CacheEntry) : List (String × CacheEntry) :=
  if (cache.find? (fun q => q.1 = p)).isSome then
    cache.map (fun q => if q.1 = p then (p, ce) else q)
  else cache ++ [(p, ce)]

/-- One iteration of the scan loop: ingest the file, bump the counters, and
(after a new/updated result) record the fresh stat in the cache without a
`status` key. -/
def ingestStep (extract : ℕ → ExtractResult) (st : IngestPassState)
    (f : FsFile) : IngestPassState :=
  let rdb := ingestFile extract st.db (some st.cache) f false
  let cache' :=
    if rdb.1 = "new" ∨ rdb.1 = "updated" then
      cachePut st.cache f.path { mtime := f.mtime, size := f.size, status := none }
    else st.cache
  { db := rdb.2
    cache := cache'
    newCount := st.newCount + (if rdb.1 = "new" then 1 else 0)
    updatedCount := st.updatedCount + (if rdb.1 = "updated" then 1 else 0)
    skippedCount := st.skippedCount + (if rdb.1 = "skipped" then 1 else 0)
    results := st.results ++ [rdb.1] }

/-- One full ingestion pass of `main` over the walked files, starting from
the stored table `db0` (the cache is hydrated from it). -/
def ingestPass (extract : ℕ → ExtractResult) (files : List FsFile)
    (db0 : List RawFileRec) : IngestPassState :=
  files.foldl (ingestStep extract)
    { db := db0, cache := cacheFromDb db0, newCount := 0, updatedCount := 0,
      skippedCount := 0, results := [] }

/-- Extraction used in concrete ingestion scenarios: content 0 extracts to
no text (a non-image), every other content extracts fine. -/
def sampleExtract : ℕ → ExtractResult :=
  fun c => if c = 0 then { text := "", fileType := "text" }
           else { text := "some text", fileType := "text" }

/-- A file whose extraction fails (content 0). -/
def failFile : FsFile := { path := "/docs/bad.txt", mtime := 5, size := 9, content := 0 }

/-- Two files with identical bytes at different paths. -/
def dupFileA : FsFile := { path := "/docs/a.txt", mtime := 1, size := 4, content := 7 }

/-- Second copy of the same content at another path. -/
def dupFileB : FsFile := { path := "/docs/b.txt", mtime := 2, size := 4, content := 7 }

/-! ## segment/segment_entries.py (claims C3, C4, C10)

Text is a `List Char`.  The regex machinery the module uses is embedded
directly: the split pattern `(\n\s*(?:={3,}|-{3,}|\*{3,})\s*\n)|(\n\s*\n)`
(separator lines or blank-line runs), the boundary patterns of
`split_large_segment`, the fenced-code-block pattern of
`extract_code_blocks`, and Python's `str.strip`/`str.split`/`str.replace`.
Scanning loops take a fuel argument (the wrappers pass `length + 1`, which
the scans, each consuming at least one character per step, never exhaust).
The HTML tag stripper (`HTMLTextExtractor`) is a text-to-text preprocessor
taken as a parameter.  `compute_content_hash` is SHA-256 of the normalized
text; as the code only compares hashes for equality it is modelled
collision-freely as the normalized text itself. -/

/-- `MIN_ENTRY_LENGTH`. -/
def MIN_ENTRY_LENGTH : ℕ := 50

/-- `MAX_ENTRY_LENGTH`. -/
def MAX_ENTRY_LENGTH : ℕ := 4000

/-- `OVERLAP_LENGTH`. -/
def OVERLAP_LENGTH : ℕ := 200

/-- Length of the leading whitespace run (`\s*` greedy). -/
def wsRunLen (l : List Char) : ℕ := (l.takeWhile pyIsSpace).length

/-- Greatest index `t < n` with `l[t] = '\n'` (where the backtracking
`\s*\n` tail of the split patterns ends: the last newline of the
whitespace run). -/
def lastNlIdx (l : List Char) (n : ℕ) : Option ℕ :=
  (((l.take n).enum.filter (fun p => p.2 = '\n')).map (fun p => p.1)).getLast?

/-- Match of `\n\s*\n` at the head of `l`: a newline, then a whitespace run
that contains another newline; greedy/backtracking semantics end the match
just after the last newline of the run.  Returns the match length. -/
def matchDNL : List Char → Option ℕ
  | [] => none
  | c :: rest =>
    if c = '\n' then
      match lastNlIdx rest (wsRunLen rest) with
      | some t => some (t + 2)
      | none => none
    else none

/-- Characters of the separator-run alternatives `={3,}|-{3,}|\*{3,}`. -/
def sepRunChar (c : Char) : Bool := c = '=' ∨ c = '-' ∨ c = '*'

/-- Match of `\n\s*(?:={3,}|-{3,}|\*{3,})\s*\n` at the head of `l`
(separator line).  The greedy `\s*` runs admit no real backtracking here
(the run characters are non-whitespace), so the match is: newline,
whitespace run, 3+ of one separator character, then a whitespace run
containing a newline, ending after that run's last newline.  Returns the
match length. -/
def matchSep : List Char → Option ℕ
  | [] => none
  | c0 :: rest =>
    if c0 = '\n' then
      let w := wsRunLen rest
      match rest.drop w with
      | c :: tl =>
        if sepRunChar c then
          let m := 1 + (tl.takeWhile (fun d => d = c)).length
          if m ≥ 3 then
            let rest2 := (rest.drop w).drop m
            match lastNlIdx rest2 (wsRunLen rest2) with
            | some t => some (1 + w + m + t + 1)
            | none => none
          else none
        else none
      | [] => none
    else none

/-- One alternation step of the combined split pattern (the separator
alternative is tried first, as in the source's
`f'(?:{separator_pattern})|(?:{double_newline_pattern})'`). -/
def matchSplit (l : List Char) : Option ℕ :=
  match matchSep l with
  | some e => some e
  | none => matchDNL l

/-- `re.finditer(split_pattern, text)`: leftmost non-overlapping matches,
as (start, end) position pairs.  Fuel bounds the scan (one character or one
match consumed per step). -/
def findSplitMatches : ℕ → List Char → ℕ → List (ℕ × ℕ)
  | 0, _, _ => []
  | _ + 1, [], _ => []
  | fuel + 1, c :: rest, pos =>
    match matchSplit (c :: rest) with
    | some e => (pos, pos + e) :: findSplitMatches fuel ((c :: rest).drop e) (pos + e)
    | none => findSplitMatches fuel rest (pos + 1)

/-- One primary segment: stripped text plus the unstripped start/end
offsets the code records (the `end` key is named `stop` here). -/
structure RawSeg where
  text : List Char
  start : ℕ
  stop : ℕ
deriving DecidableEq

/-- The `raw_segments` list of `heuristic_split`: the stripped slices
between the split matches (and after the last match), keeping only those of
length ≥ `MIN_ENTRY_LENGTH`. -/
def buildRawSegments (text : List Char) : List RawSeg :=
  let ms := findSplitMatches (text.length + 1) text 0
  let step : (ℕ × List RawSeg) → (ℕ × ℕ) → (ℕ × List RawSeg) := fun st m =>
    let segText := pyStrip ((text.drop st.1).take (m.1 - st.1))
    (m.2, if segText.length ≥ MIN_ENTRY_LENGTH
      then st.2 ++ [⟨segText, st.1, m.1⟩] else st.2)
  let fin := ms.foldl step (0, [])
  if fin.1 < text.length then
    let segText := pyStrip (text.drop fin.1)
    if segText.length ≥ MIN_ENTRY_LENGTH
      then fin.2 ++ [⟨segText, fin.1, text.length⟩] else fin.2
  else fin.2

/-- Ends of all matches of a two-character boundary pattern (a class
character followed by `\s`) inside the search window. -/
def lastTwoCharMatch (cls : Char → Bool) (window : List Char) : Option ℕ :=
  ((window.enum.filter (fun p =>
      cls p.2 ∧ ((window.get? (p.1 + 1)).map pyIsSpace).getD false)).map
    (fun p => p.1)).getLast?.map (fun i => i + 2)

/-- End of the last `\n` match inside the window. -/
def lastNlMatch (window : List Char) : Option ℕ :=
  ((window.enum.filter (fun p => p.2 = '\n')).map
    (fun p => p.1)).getLast?.map (fun i => i + 1)

/-- The boundary search of `split_large_segment`: for each pattern in
priority order `[.!?]\s`, `\n`, `,\s`, `;\s`, if the window has any match,
take the end of the last one and stop. -/
def findLastBoundary (window : List Char) : Option ℕ :=
  match lastTwoCharMatch (fun c => c = '.' ∨ c = '!' ∨ c = '?') window with
  | some e => some e
  | none =>
    match lastNlMatch window with
    | some e => some e
    | none =>
      match lastTwoCharMatch (fun c => c = ',') window with
      | some e => some e
      | none => lastTwoCharMatch (fun c => c = ';') window

/-- The `while current_pos < len(text)` loop of `split_large_segment`, on
the remaining suffix.  When more than `maxLen` characters remain the chunk
end starts at `min(current_pos + max_length, len)` and is pulled back to
the best boundary found in the window from the midpoint; stripped chunks
are kept when non-empty. -/
def splitLargeLoop (maxLen : ℕ) : ℕ → List Char → List (List Char)
  | 0, _ => []
  | fuel + 1, l =>
    if l.length = 0 then []
    else if l.length ≤ maxLen then
      let c := pyStrip l
      if c.length = 0 then [] else [c]
    else
      let window := (l.drop (maxLen / 2)).take (maxLen - maxLen / 2)
      let bestBreak :=
        match findLastBoundary window with
        | some e => maxLen / 2 + e
        | none => maxLen
      let c := pyStrip (l.take bestBreak)
      let rest := splitLargeLoop maxLen fuel (l.drop bestBreak)
      if c.length = 0 then rest else c :: rest

/-- `split_large_segment(text, max_length)`. -/
def splitLargeSegment (text : List Char) (maxLen : ℕ) : List (List Char) :=
  if text.length ≤ maxLen then [text]
  else splitLargeLoop maxLen (text.length + 1) text

/-- One extracted fenced code block. -/
structure CodeBlock where
  full : List Char
  lang : List Char
  code : List Char
deriving DecidableEq

/-- Python `\w` (ASCII scope). -/
def isWordChar (c : Char) : Bool := c.isAlphanum ∨ c = '_'

/-- Index of the first occurrence of `pat` in `l`. -/
def firstOccurrenceIdx (pat : List Char) : List Char → Option ℕ
  | [] => if pat.isEmpty then some 0 else none
  | c :: rest =>
    if pat.isPrefixOf (c :: rest) then some 0
    else (firstOccurrenceIdx pat rest).map (fun i => i + 1)

/-- The placeholder `"<<<CODE_BLOCK_{}>>".format(idx)` (note: two closing
angle brackets, as in the source). -/
def codePlaceholder (idx : ℕ) : List Char :=
  "<<<CODE_BLOCK_".data ++ (toString idx).data ++ ">>".data

/-- The scan of `re.sub(r'```(\w*)\n?([\s\S]*?)```', replace_code, text)`:
at a fence, read the greedy `\w*` language run and optional newline, then
the lazy body up to the first closing fence; replace with the placeholder
and continue after the match, else move one character on. -/
def extractCodeBlocksGo : ℕ → List Char → ℕ → List Char × List CodeBlock
  | 0, l, _ => (l, [])
  | _ + 1, [], _ => ([], [])
  | fuel + 1, c :: rest, idx =>
    if "```".data.isPrefixOf (c :: rest) then
      let after := (c :: rest).drop 3
      let lang := after.takeWhile isWordChar
      let rest1 := after.drop lang.length
      let nl : ℕ := if rest1.head? = some '\n' then 1 else 0
      let rest2 := rest1.drop nl
      match firstOccurrenceIdx "```".data rest2 with
      | some j =>
        let block : CodeBlock :=
          { full := (c :: rest).take (3 + lang.length + nl + j + 3)
            lang := lang
            code := rest2.take j }
        let res := extractCodeBlocksGo fuel (rest2.drop (j + 3)) (idx + 1)
        (codePlaceholder idx ++ res.1, block :: res.2)
      | none =>
        let res := extractCodeBlocksGo fuel rest idx
        (c :: res.1, res.2)
    else
      let res := extractCodeBlocksGo fuel rest idx
      (c :: res.1, res.2)

/-- `extract_code_blocks(text)`. -/
def extractCodeBlocks (text : List Char) : List Char × List CodeBlock :=
  extractCodeBlocksGo (text.length + 1) text 0

/-- Python `str.replace(pat, repl)` (all non-overlapping occurrences, left
to right; the module only calls it with non-empty patterns). -/
def replaceAllGo (pat repl : List Char) : ℕ → List Char → List Char
  | 0, l => l
  | _ + 1, [] => []
  | fuel + 1, c :: rest =>
    if pat ≠ [] ∧ pat.isPrefixOf (c :: rest) then
      repl ++ replaceAllGo pat repl fuel ((c :: rest).drop pat.length)
    else c :: replaceAllGo pat repl fuel rest

/-- Python `str.replace`. -/
def replaceAll (l pat repl : List Char) : List Char :=
  replaceAllGo pat repl (l.length + 1) l

/-- `restore_code_blocks(text, code_blocks)`. -/
def restoreCodeBlocks (text : List Char) (blocks : List CodeBlock) : List Char :=
  blocks.enum.foldl (fun t p => replaceAll t (codePlaceholder p.1) p.2.full) text

/-- Python `str.split('\n')`. -/
def splitOnNl : List Char → List (List Char)
  | [] => [[]]
  | c :: rest =>
    if c = '\n' then [] :: splitOnNl rest
    else
      match splitOnNl rest with
      | [] => [[c]]
      | h :: t => (c :: h) :: t

/-- `find_last_headers_before(text, position)`: track the most recent
h1/h2/h3 markdown headers in the text before the position, resetting deeper
levels when a shallower header appears, and join the present ones with
newlines. -/
def findLastHeadersBefore (text : List Char) (pos : ℕ) : List Char :=
  let lines := splitOnNl (text.take pos)
  let step : Option (List Char) × Option (List Char) × Option (List Char) →
      List Char → Option (List Char) × Option (List Char) × Option (List Char) :=
    fun st line =>
      let ls := pyStrip line
      if "# ".data.isPrefixOf ls ∧ ¬ ("##".data.isPrefixOf ls) then
        (some ls, none, none)
      else if "## ".data.isPrefixOf ls ∧ ¬ ("###".data.isPrefixOf ls) then
        (st.1, some ls, none)
      else if "### ".data.isPrefixOf ls then (st.1, st.2.1, some ls)
      else st
  let fin := lines.foldl step (none, none, none)
  List.intercalate ['\n'] ([fin.1, fin.2.1, fin.2.2].filterMap id)

/-- The body of `heuristic_split`'s per-segment loop: the segments appended
for raw segment `i` — markdown header context, then either the large-split
path or the overlap path, with code blocks restored. -/
def processSegment (is_markdown : Bool) (codeBlocks : List CodeBlock)
    (text : List Char) (rawSegments : List RawSeg) (i : ℕ) (seg : RawSeg) :
    List RawSeg :=
  let segText1 :=
    if is_markdown then
      let hdr := findLastHeadersBefore text seg.start
      if hdr ≠ [] ∧ ¬ ("#".data.isPrefixOf seg.text) then
        hdr ++ "\n\n".data ++ seg.text
      else seg.text
    else seg.text
  if segText1.length > MAX_ENTRY_LENGTH then
    (splitLargeSegment segText1 MAX_ENTRY_LENGTH).map (fun chunk =>
      ⟨if is_markdown ∧ codeBlocks ≠ [] then restoreCodeBlocks chunk codeBlocks
        else chunk, seg.start, seg.stop⟩)
  else
    let segText2 :=
      if OVERLAP_LENGTH > 0 ∧ i > 0 then
        let prev := ((rawSegments.get? (i - 1)).map (fun s => s.text)).getD []
        let overlap := if prev.length > OVERLAP_LENGTH
          then prev.drop (prev.length - OVERLAP_LENGTH) else prev
        "[...] ".data ++ overlap ++ "\n\n".data ++ segText1
      else segText1
    [⟨if is_markdown ∧ codeBlocks ≠ [] then restoreCodeBlocks segText2 codeBlocks
        else segText2, seg.start, seg.stop⟩]

/-- `heuristic_split(text, is_html, is_markdown)`.  The HTML tag stripper
(`strip_html` / `HTMLTextExtractor`) is a text preprocessor passed as
`stripHtmlFn`. -/
def heuristicSplit (stripHtmlFn : List Char → List Char) (text0 : List Char)
    (is_html is_markdown : Bool) : List RawSeg :=
  let text1 := if is_html then stripHtmlFn text0 else text0
  let ecb := if is_markdown then extractCodeBlocks text1 else (text1, [])
  let rawSegments := buildRawSegments ecb.1
  rawSegments.enum.foldl
    (fun acc p => acc ++ processSegment is_markdown ecb.2 ecb.1 rawSegments p.1 p.2)
    []

/-- Python `str.lower()` on a character list. -/
def pyLower (l : List Char) : List Char := l.map Char.toLower

/-- Python `str.split()` on a character list (whitespace runs, no
empties). -/
def pyWordsListGo : ℕ → List Char → List (List Char)
  | 0, _ => []
  | fuel + 1, l =>
    match l.dropWhile pyIsSpace with
    | [] => []
    | c :: rest =>
      (c :: rest.takeWhile (fun d => ¬ pyIsSpace d)) ::
        pyWordsListGo fuel (rest.dropWhile (fun d => ¬ pyIsSpace d))

/-- Python `str.split()` (word list). -/
def pyWordsList (l : List Char) : List (List Char) :=
  pyWordsListGo (l.length + 1) l

/-- `compute_content_hash(text)`: SHA-256 of
`' '.join(text.lower().split())`.  The hash is used only for equality
comparison, so it is modelled (collision-freely) as the normalized text
itself. -/
def computeContentHash (text : List Char) : List Char :=
  List.intercalate [' '] (pyWordsList (pyLower text))

/-- One `entries` row as `segment_file` creates it. -/
structure EntryRow where
  entry_index : ℕ
  char_start : ℕ
  char_end : ℕ
  entry_text : List Char
  content_hash : List Char
  status : String
deriving DecidableEq

/-- The segment list `segment_file` iterates: `heuristic_split` output, or
the whole-text fallback entry when it is empty and the stripped text is
non-empty. -/
def segmentsOf (stripHtmlFn : List Char → List Char) (ext : List Char)
    (raw_text : List Char) : List RawSeg :=
  let extL := pyLower ext
  let is_html := extL = ".html".data ∨ extL = ".htm".data
  let is_markdown := extL = ".md".data ∨ extL = ".markdown".data
  let segments0 := heuristicSplit stripHtmlFn raw_text is_html is_markdown
  if segments0 = [] then
    if (pyStrip raw_text).length > 0 then
      [⟨pyStrip raw_text, 0, raw_text.length⟩]
    else []
  else segments0

/-- The rows `segment_file` inserts for a file with no existing entries:
one `pending` row per segment whose content hash is not already in the
archive (`archive` is the set of content hashes of previously committed
entries — the in-loop duplicate query sees only those, because the new
rows are added to the session after the loop).  Link extraction writes a
separate side table not modelled here. -/
def segmentFileEntries (stripHtmlFn : List Char → List Char)
    (archive : List (List Char)) (ext : List Char) (raw_text : List Char) :
    List EntryRow :=
  ((segmentsOf stripHtmlFn ext raw_text).enum.filter
    (fun p => ¬ (computeContentHash p.2.text ∈ archive))).map
    (fun p => ⟨p.1, p.2.start, p.2.stop, p.2.text,
      computeContentHash p.2.text, "pending"⟩)

/-- A 60-character paragraph. -/
def paraP : List Char := List.replicate 60 'p'

/-- A document of two byte-identical paragraphs separated by a blank
line. -/
def twoParaDoc : List Char := paraP ++ '\n' :: '\n' :: paraP

/-- A document of three byte-identical paragraphs. -/
def threeParaDoc : List Char :=
  paraP ++ '\n' :: '\n' :: paraP ++ '\n' :: '\n' :: paraP

/-- A 200-character paragraph followed by a blank line and a 4000-character
paragraph (the second picks up a full-size overlap prefix). -/
def overlapDoc : List Char :=
  List.replicate 200 'a' ++ '\n' :: '\n' :: List.replicate 4000 'b'

/-! ## Theorems -/

theorem titlePoints_le (md : LLMMetadata) : titlePoints md ≤ 20 := by
  unfold titlePoints; split_ifs <;> omega

theorem summaryPoints_le (t : String) (md : LLMMetadata) :
    summaryPoints t md ≤ 30 := by
  unfold summaryPoints; dsimp only; split_ifs <;> omega

theorem tagsPoints_le (md : LLMMetadata) : tagsPoints md ≤ 25 := by
  unfold tagsPoints; dsimp only; split_ifs <;> omega

theorem authorPoints_le (md : LLMMetadata) : authorPoints md ≤ 15 := by
  unfold authorPoints; split_ifs <;> omega

theorem datePoints_le (md : LLMMetadata) : datePoints md ≤ 10 := by
  unfold datePoints; split_ifs <;> omega

theorem qualityPoints_le (t : String) (md : LLMMetadata) :
    qualityPoints t md ≤ 100 := by
  have h1 := titlePoints_le md
  have h2 := summaryPoints_le t md
  have h3 := tagsPoints_le md
  have h4 := authorPoints_le md
  have h5 := datePoints_le md
  unfold qualityPoints; omega

theorem enrichEntryStep_none_eq (e : EnrichEntryState) (rf : Option RawFileInfo) :
    enrichEntryStep e rf none =
      { e with
        retry_count := some (e.retry_count.getD 0 + 1)
        status := if e.retry_count.getD 0 + 1 ≥ MAX_RETRIES
          then "error" else e.status } := rfl

theorem enrichEntryStep_some_status (e : EnrichEntryState)
    (rf : Option RawFileInfo) (md : LLMMetadata) :
    (enrichEntryStep e rf (some md)).status = "enriched" := rfl

theorem enrichEntryStep_some_retry (e : EnrichEntryState)
    (rf : Option RawFileInfo) (md : LLMMetadata) :
    (enrichEntryStep e rf (some md)).retry_count = e.retry_count := rfl

theorem enrichEntryStep_needs_review (e : EnrichEntryState)
    (rf : Option RawFileInfo) (md : LLMMetadata) :
    ((enrichEntryStep e rf (some md)).extra_meta.getD {}).needs_review =
      (if calculateQualityScore e.entry_text md < 2/5 then true
        else (e.extra_meta.getD {}).needs_review) := by
  by_cases h : calculateQualityScore e.entry_text md < 2/5 <;>
    by_cases h2 : optTruthy md.created_hint <;>
      simp [enrichEntryStep, h, h2]

/-- C9: for every chunk text and metadata dict, the computed quality score
lies in [0,1]; and after a successful enrichment of a fresh entry (one whose
`extra_meta` has not been populated yet) the `needs_review` flag is set
exactly when the quality score is below 0.4. -/
theorem quality_score_in_unit_and_needs_review_iff
    (t : String) (md : LLMMetadata) (e : EnrichEntryState)
    (rf : Option RawFileInfo) (hfresh : e.extra_meta = none) :
    (0 ≤ calculateQualityScore t md ∧ calculateQualityScore t md ≤ 1) ∧
    (((enrichEntryStep e rf (some md)).extra_meta.getD {}).needs_review = true
      ↔ calculateQualityScore e.entry_text md < 2/5) := by
  constructor
  · constructor
    · unfold calculateQualityScore
      positivity
    · unfold calculateQualityScore
      rw [div_le_one (by norm_num)]
      exact_mod_cast qualityPoints_le t md
  · rw [enrichEntryStep_needs_review, hfresh]
    split_ifs with h <;> simp [h, ExtraMeta.needs_review]

/-- Witness for `quality_score_in_unit_and_needs_review_iff` at a concrete
entry and metadata object. -/
theorem quality_score_in_unit_and_needs_review_iff_witness :
    (0 ≤ calculateQualityScore "some text" mdSample ∧
      calculateQualityScore "some text" mdSample ≤ 1) ∧
    (((enrichEntryStep entrySample none (some mdSample)).extra_meta.getD
        {}).needs_review = true
      ↔ calculateQualityScore entrySample.entry_text mdSample < 2/5) :=
  quality_score_in_unit_and_needs_review_iff "some text" mdSample entrySample
    none rfl

/-- C5: `retry_count` is non-decreasing under every enrichment attempt; a
failed attempt increments it by exactly 1; from a state satisfying the
pending-invariant (`status = pending → retry_count < MAX_RETRIES`) a failed
attempt flips the status to `error` exactly when the new counter reaches
`MAX_RETRIES`, never before; the invariant is preserved; and entries with
`status = error` never pass the enrichment batch filter. -/
theorem retry_monotonic_error_at_max_and_excluded
    (e : EnrichEntryState) (rf : Option RawFileInfo)
    (hInv : e.status = "pending" → rcVal e < MAX_RETRIES) :
    (∀ md, rcVal e ≤ rcVal (enrichEntryStep e rf md)) ∧
    rcVal (enrichEntryStep e rf none) = rcVal e + 1 ∧
    (e.status = "pending" →
      ((enrichEntryStep e rf none).status = "error"
        ↔ rcVal (enrichEntryStep e rf none) = MAX_RETRIES)) ∧
    (∀ md, (enrichEntryStep e rf md).status = "pending" →
      rcVal (enrichEntryStep e rf md) < MAX_RETRIES) ∧
    (∀ e' : EnrichEntryState, e'.status = "error" → enrichBatchFilter e' = false) := by
  refine ⟨?_, ?_, ?_, ?_, ?_⟩
  · intro md
    match md with
    | none => simp [enrichEntryStep_none_eq, rcVal]
    | some m => simp [rcVal, enrichEntryStep_some_retry]
  · simp [enrichEntryStep_none_eq, rcVal]
  · intro hp
    have hrc := hInv hp
    simp only [enrichEntryStep_none_eq, rcVal, MAX_RETRIES] at *
    split_ifs with h
    · simp only [Option.getD_some]
      constructor
      · intro _; omega
      · intro _; trivial
    · simp only [Option.getD_some, hp]
      constructor
      · intro habs; exact absurd habs (by decide)
      · omega
  · intro md
    match md with
    | none =>
      simp only [enrichEntryStep_none_eq, rcVal, MAX_RETRIES]
      split_ifs with h
      · intro habs; exact absurd habs (by decide)
      · intro _; simp only [Option.getD_some]; omega
    | some m =>
      intro habs
      rw [enrichEntryStep_some_status] at habs
      exact absurd habs (by decide)
  · intro e' he'
    simp [enrichBatchFilter, he']

/-- Witness for `retry_monotonic_error_at_max_and_excluded` at a concrete
pending entry. -/
theorem retry_monotonic_error_at_max_and_excluded_witness :
    (∀ md, rcVal entrySample ≤ rcVal (enrichEntryStep entrySample none md)) ∧
    rcVal (enrichEntryStep entrySample none none) = rcVal entrySample + 1 ∧
    (entrySample.status = "pending" →
      ((enrichEntryStep entrySample none none).status = "error"
        ↔ rcVal (enrichEntryStep entrySample none none) = MAX_RETRIES)) ∧
    (∀ md, (enrichEntryStep entrySample none md).status = "pending" →
      rcVal (enrichEntryStep entrySample none md) < MAX_RETRIES) ∧
    (∀ e' : EnrichEntryState, e'.status = "error" → enrichBatchFilter e' = false) :=
  retry_monotonic_error_at_max_and_excluded entrySample none (by intro _; decide)

theorem rankFrom_mem_exists {ids : List ℕ} {id : ℕ} (n : ℕ) (h : id ∈ ids) :
    ∃ r, (id, r) ∈ rankFrom n ids := by
  induction ids generalizing n with
  | nil => cases h
  | cons a rest ih =>
    rcases List.mem_cons.mp h with h1 | h2
    · exact ⟨n, by simp [rankFrom, h1]⟩
    · obtain ⟨r, hr⟩ := ih (n + 1) h2
      exact ⟨r, by simp [rankFrom, hr]⟩

theorem rrfFullOuterJoin_score (v k : List (ℕ × ℕ)) (row : RRFRow)
    (h : row ∈ rrfFullOuterJoin v k) :
    row.rrf_score = rrfScore row.vector_rank row.keyword_rank := by
  rcases List.mem_append.mp h with h1 | h1 <;>
  · obtain ⟨p, _, hp⟩ := List.mem_map.mp h1
    subst hp
    rfl

theorem rrfFullOuterJoin_covers (v k : List (ℕ × ℕ)) (id : ℕ)
    (h : (∃ r, (id, r) ∈ v) ∨ (∃ r, (id, r) ∈ k)) :
    ∃ row ∈ rrfFullOuterJoin v k, row.id = id := by
  rcases h with ⟨r, hr⟩ | ⟨r, hr⟩
  · refine ⟨_, List.mem_append_left _ (List.mem_map_of_mem _ hr), rfl⟩
  · cases hv : rankOf v id with
    | some s =>
      obtain ⟨q, hq⟩ := Option.map_eq_some'.mp hv
      have hqmem := List.mem_of_find?_eq_some hq.1
      have hqid : q.1 = id := by
        have := List.find?_some hq.1
        exact of_decide_eq_true this
      exact ⟨_, List.mem_append_left _ (List.mem_map_of_mem _ hqmem), hqid⟩
    | none =>
      have hmem : (id, r) ∈ k.filter (fun p => rankOf v p.1 = none) :=
        List.mem_filter.mpr ⟨hr, by simp [hv]⟩
      exact ⟨_, List.mem_append_right _ (List.mem_map_of_mem _ hmem), rfl⟩

theorem rrfScore_single_lt_both (r : ℕ) (h2 : r < RRF_SENTINEL) :
    rrfScore (some r) none < rrfScore (some r) (some r) ∧
    rrfScore none (some r) < rrfScore (some r) (some r) := by
  have hlt : ((60 : ℚ) + r) < 60 + RRF_SENTINEL := by
    have : (r : ℚ) < RRF_SENTINEL := by exact_mod_cast h2
    linarith
  have hr0 : (0 : ℚ) < 60 + r := by positivity
  constructor
  · exact add_lt_add_left
      (div_lt_div_of_pos_left (by norm_num) hr0 hlt) _
  · exact add_lt_add_right
      (div_lt_div_of_pos_left (by norm_num) hr0 hlt) _

/-- C2 (amended): in both retrieval stages every output row's combined
score is `0.7/(60+vector_rank) + 0.3/(60+keyword_rank)` with a missing rank
coalesced to the finite sentinel 99999; for equal ranks a candidate matched
in both lists scores strictly higher than one matched in a single list;
single-list candidates get a strictly positive score and stay in the row
set.  Stage 1 caps both ranked lists at the top 100; stage 2's ranked CTEs
carry no such cap (every ranked candidate is kept). -/
theorem rrf_score_formula_sentinel_and_ordering :
    (∀ vecOrder kwOrder : List ℕ,
      ∀ row ∈ searchDocsStage1Scores vecOrder kwOrder,
      row.rrf_score = (7/10) / (60 + (rrfCoalesce row.vector_rank : ℚ))
        + (3/10) / (60 + (rrfCoalesce row.keyword_rank : ℚ))) ∧
    (∀ vecOrder kwOrder : List ℕ,
      ∀ row ∈ searchChunksStage2Scores vecOrder kwOrder,
      row.rrf_score = (7/10) / (60 + (rrfCoalesce row.vector_rank : ℚ))
        + (3/10) / (60 + (rrfCoalesce row.keyword_rank : ℚ))) ∧
    (∀ r : ℕ, r < RRF_SENTINEL →
      rrfScore (some r) none < rrfScore (some r) (some r) ∧
      rrfScore none (some r) < rrfScore (some r) (some r) ∧
      0 < rrfScore (some r) none ∧ 0 < rrfScore none (some r)) ∧
    (∀ vecOrder kwOrder id, id ∈ vecOrder.take 100 ∨ id ∈ kwOrder.take 100 →
      ∃ row ∈ searchDocsStage1Scores vecOrder kwOrder, row.id = id) ∧
    (∀ vecOrder kwOrder id, id ∈ vecOrder ∨ id ∈ kwOrder →
      ∃ row ∈ searchChunksStage2Scores vecOrder kwOrder, row.id = id) := by
  refine ⟨?_, ?_, ?_, ?_, ?_⟩
  · intro vecOrder kwOrder row h
    exact rrfFullOuterJoin_score _ _ row h
  · intro vecOrder kwOrder row h
    exact rrfFullOuterJoin_score _ _ row h
  · intro r h2
    refine ⟨(rrfScore_single_lt_both r h2).1, (rrfScore_single_lt_both r h2).2,
      ?_, ?_⟩ <;>
    · unfold rrfScore rrfCoalesce RRF_SENTINEL
      positivity
  · intro vecOrder kwOrder id h
    refine rrfFullOuterJoin_covers _ _ id ?_
    rcases h with h | h
    · exact Or.inl (rankFrom_mem_exists 1 h)
    · exact Or.inr (rankFrom_mem_exists 1 h)
  · intro vecOrder kwOrder id h
    refine rrfFullOuterJoin_covers _ _ id ?_
    rcases h with h | h
    · exact Or.inl (rankFrom_mem_exists 1 h)
    · exact Or.inr (rankFrom_mem_exists 1 h)

/-- Witness for `rrf_score_formula_sentinel_and_ordering` at rank 5 and a
concrete pair of ordered id lists. -/
theorem rrf_score_formula_sentinel_and_ordering_witness :
    (rrfScore (some 5) none < rrfScore (some 5) (some 5) ∧
      rrfScore none (some 5) < rrfScore (some 5) (some 5) ∧
      0 < rrfScore (some 5) none ∧ 0 < rrfScore none (some 5)) ∧
    (∃ row ∈ searchDocsStage1Scores [3, 7] [7, 9], row.id = 9) :=
  ⟨rrf_score_formula_sentinel_and_ordering.2.2.1 5 (by decide),
   rrf_score_formula_sentinel_and_ordering.2.2.2.1 [3, 7] [7, 9] 9
     (Or.inr (by decide))⟩

set_option maxRecDepth 20000 in
/-- C2 counterexample: in stage 2 the ranked lists are not capped at the
top 100 — with 101 vector-ranked chunks the 101st is kept with real rank
101, while under the claim's top-100 reading it would be absent. -/
theorem stage2_ranks_beyond_top100 :
    (∃ row ∈ searchChunksStage2Scores (List.range 101) [],
      row.id = 100 ∧ row.vector_rank = some 101) ∧
    (∀ row ∈ searchChunksStage2ScoresTop100Claim (List.range 101) [],
      row.id ≠ 100) := by decide

/-- C1: with an embedding backend that yields no vector, `search_two_stage`
returns the empty entry list with `stats["error"] = "embedding_failed"` —
it does not substitute keyword-only results, even though the single-stage
`search_entries_semantic` hybrid path does exactly that under the same
failure (second conjunct), so keyword-ranked results were available. -/
theorem two_stage_embed_failure_returns_empty_entries
    (env : SearchEnv) (query : String) (k n : ℕ)
    (hfail : env.embedQuery query = none) :
    searchTwoStage env query k n =
      { entries := [], docs := [], statsError := some "embedding_failed",
        statsMode := none } ∧
    searchEntriesSemantic env query k SEARCH_MODE_HYBRID =
      (env.keywordOnly query (k * 2)).take k := by
  constructor
  · unfold searchTwoStage
    rw [hfail]
  · unfold searchEntriesSemantic
    rw [if_neg (by decide), hfail, if_pos rfl]
    rfl

/-- Witness for `two_stage_embed_failure_returns_empty_entries`: a concrete
archive with keyword match (entry 7) and a down embedder still produces an
empty two-stage result. -/
theorem two_stage_embed_failure_returns_empty_entries_witness :
    searchTwoStage downEmbedderEnv "any query" 5 30 =
      { entries := [], docs := [], statsError := some "embedding_failed",
        statsMode := none } ∧
    searchEntriesSemantic downEmbedderEnv "any query" 5 SEARCH_MODE_HYBRID =
      (downEmbedderEnv.keywordOnly "any query" (5 * 2)).take 5 :=
  two_stage_embed_failure_returns_empty_entries downEmbedderEnv "any query" 5 30
    rfl

theorem sanitize_length_le_of_pos (p : List Char) (m : ℕ) (hm : 0 < m) :
    (sanitizeEmbeddingPrompt p m).length ≤ m := by
  unfold sanitizeEmbeddingPrompt
  dsimp only
  split_ifs with h
  · simp [List.length_take]
  · push_neg at h
    exact h hm

theorem ollamaEmbedGo_head (A : ℕ) (backend : ℕ → List Char → OllamaEmbedResponse)
    (fuel attempt : ℕ) (prompt : List Char) (h : 1 ≤ fuel) :
    (ollamaEmbedGo A backend fuel attempt prompt).promptLens.head?
      = some prompt.length := by
  match fuel, h with
  | fuel + 1, _ =>
    unfold ollamaEmbedGo
    cases backend attempt prompt with
    | success e => rfl
    | httpError s b => dsimp only; split_ifs <;> rfl
    | requestError => dsimp only; split_ifs <;> rfl

theorem ollamaEmbedGo_lens_le (A : ℕ)
    (backend : ℕ → List Char → OllamaEmbedResponse) :
    ∀ (fuel attempt : ℕ) (prompt : List Char),
    prompt.length ≤ EMBEDDING_MAX_CHARS →
    ∀ l ∈ (ollamaEmbedGo A backend fuel attempt prompt).promptLens,
      l ≤ EMBEDDING_MAX_CHARS := by
  intro fuel
  induction fuel with
  | zero => intro attempt prompt hp l hl; simp [ollamaEmbedGo] at hl
  | succ n ih =>
    intro attempt prompt hp l hl
    unfold ollamaEmbedGo at hl
    cases hresp : backend attempt prompt with
    | success e =>
      rw [hresp] at hl
      simp at hl; omega
    | httpError s b =>
      rw [hresp] at hl
      dsimp only at hl
      split_ifs at hl with hcond
      · rcases List.mem_cons.mp hl with h1 | h1
        · omega
        · refine ih (attempt + 1) _ ?_ l h1
          refine le_trans (sanitize_length_le_of_pos _ _ (by omega)) ?_
          unfold EMBEDDING_MAX_CHARS at hp ⊢
          omega
      · simp at hl; omega
    | requestError =>
      rw [hresp] at hl
      dsimp only at hl
      split_ifs at hl with hcond
      · rcases List.mem_cons.mp hl with h1 | h1
        · omega
        · exact ih (attempt + 1) _ hp l h1
      · simp at hl; omega

theorem ollamaEmbedGo_count_le (A : ℕ)
    (backend : ℕ → List Char → OllamaEmbedResponse) :
    ∀ (fuel attempt : ℕ) (prompt : List Char),
    (ollamaEmbedGo A backend fuel attempt prompt).promptLens.length ≤ fuel := by
  intro fuel
  induction fuel with
  | zero => intro attempt prompt; simp [ollamaEmbedGo]
  | succ n ih =>
    intro attempt prompt
    unfold ollamaEmbedGo
    cases backend attempt prompt with
    | success e => simp
    | httpError s b =>
      dsimp only; split_ifs
      · simpa using ih (attempt + 1) _
      · simp
    | requestError =>
      dsimp only; split_ifs
      · simpa using ih (attempt + 1) _
      · simp

theorem ollamaEmbedGo_delays (A : ℕ)
    (backend : ℕ → List Char → OllamaEmbedResponse) :
    ∀ (fuel attempt : ℕ) (prompt : List Char),
    ∀ i < (ollamaEmbedGo A backend fuel attempt prompt).delays.length,
      (ollamaEmbedGo A backend fuel attempt prompt).delays.getD i 0
        = EMBEDDING_RETRY_BASE_DELAY_S * ((attempt + i : ℕ) : ℚ) := by
  intro fuel
  induction fuel with
  | zero => intro attempt prompt i hi; simp [ollamaEmbedGo] at hi
  | succ n ih =>
    intro attempt prompt i hi
    unfold ollamaEmbedGo at hi ⊢
    cases hresp : backend attempt prompt with
    | success e => rw [hresp] at hi; simp at hi
    | httpError s b =>
      rw [hresp] at hi
      dsimp only at hi ⊢
      split_ifs at hi ⊢ with hcond
      · match i with
        | 0 => simp
        | j + 1 =>
          simp only [List.getD_cons_succ]
          have := ih (attempt + 1) _ j (by simpa using hi)
          rw [this]
          congr 2
          omega
      · simp at hi
    | requestError =>
      rw [hresp] at hi
      dsimp only at hi ⊢
      split_ifs at hi ⊢ with hcond
      · match i with
        | 0 => simp
        | j + 1 =>
          simp only [List.getD_cons_succ]
          have := ih (attempt + 1) _ j (by simpa using hi)
          rw [this]
          congr 2
          omega
      · simp at hi

theorem ollamaEmbedGo_none_of_failure (A : ℕ)
    (backend : ℕ → List Char → OllamaEmbedResponse)
    (hb : ∀ a p, (backend a p).isFailure) :
    ∀ (fuel attempt : ℕ) (prompt : List Char),
    (ollamaEmbedGo A backend fuel attempt prompt).result = none := by
  intro fuel
  induction fuel with
  | zero => intro attempt prompt; rfl
  | succ n ih =>
    intro attempt prompt
    unfold ollamaEmbedGo
    cases hresp : backend attempt prompt with
    | success e => have := hb attempt prompt; rw [hresp] at this; cases this
    | httpError s b =>
      dsimp only; split_ifs
      · simpa using ih (attempt + 1) _
      · rfl
    | requestError =>
      dsimp only; split_ifs
      · simpa using ih (attempt + 1) _
      · rfl

/-- C8 (amended): every `_ollama_embed` call first truncates its input to
`EMBEDDING_MAX_CHARS` = 8000 and every prompt it ever sends stays within
that cap; the number of attempts is bounded by `max 1 EMBEDDING_RETRY_ATTEMPTS`;
the sleep before retry `i` is the linearly increasing
`EMBEDDING_RETRY_BASE_DELAY_S * i` (not a geometric/exponential schedule);
when no response carries a vector the call returns `None` instead of
raising; and on a 500/400/413 context-length response with attempts
remaining the prompt is halved (re-sanitized to `max 1 (len/2)` characters,
which is exactly `len/2` for a NUL-free prompt of length ≥ 2) and the loop
retried. -/
theorem embed_truncation_halving_bounded_retries_linear_backoff :
    (∀ A backend (text : List Char),
      (ollamaEmbed A backend text).promptLens.head?
        = some ((sanitizeEmbeddingPrompt text EMBEDDING_MAX_CHARS).length)) ∧
    (∀ text : List Char,
      (sanitizeEmbeddingPrompt text EMBEDDING_MAX_CHARS).length
        ≤ EMBEDDING_MAX_CHARS) ∧
    (∀ A backend (text : List Char),
      ∀ l ∈ (ollamaEmbed A backend text).promptLens, l ≤ EMBEDDING_MAX_CHARS) ∧
    (∀ A backend (text : List Char),
      (ollamaEmbed A backend text).promptLens.length ≤ max 1 A) ∧
    (∀ A backend (text : List Char),
      ∀ i < (ollamaEmbed A backend text).delays.length,
      (ollamaEmbed A backend text).delays.getD i 0
        = EMBEDDING_RETRY_BASE_DELAY_S * ((1 + i : ℕ) : ℚ)) ∧
    (∀ A backend (text : List Char), (∀ a p, (backend a p).isFailure) →
      (ollamaEmbed A backend text).result = none) ∧
    (∀ p : List Char, p.filter (fun c => c ≠ '\x00') = p → 2 ≤ p.length →
      (sanitizeEmbeddingPrompt p (max 1 (p.length / 2))).length = p.length / 2) ∧
    (∀ A backend fuel attempt (prompt : List Char) status body,
      backend attempt prompt = .httpError status body →
      (status = some 500 ∨ status = some 400 ∨ status = some 413) →
      looksLikeContextLengthError body = true → attempt < A →
      ollamaEmbedGo A backend (fuel + 1) attempt prompt =
        { result := (ollamaEmbedGo A backend fuel (attempt + 1)
            (sanitizeEmbeddingPrompt prompt (max 1 (prompt.length / 2)))).result
          promptLens := prompt.length :: (ollamaEmbedGo A backend fuel (attempt + 1)
            (sanitizeEmbeddingPrompt prompt (max 1 (prompt.length / 2)))).promptLens
          delays := EMBEDDING_RETRY_BASE_DELAY_S * attempt ::
            (ollamaEmbedGo A backend fuel (attempt + 1)
              (sanitizeEmbeddingPrompt prompt (max 1 (prompt.length / 2)))).delays }) := by
  refine ⟨?_, ?_, ?_, ?_, ?_, ?_, ?_, ?_⟩
  · intro A backend text
    exact ollamaEmbedGo_head A backend _ 1 _ (le_max_left 1 A)
  · intro text
    exact sanitize_length_le_of_pos _ _ (by decide)
  · intro A backend text l hl
    exact ollamaEmbedGo_lens_le A backend _ 1 _
      (sanitize_length_le_of_pos _ _ (by decide)) l hl
  · intro A backend text
    exact ollamaEmbedGo_count_le A backend _ 1 _
  · intro A backend text i hi
    exact ollamaEmbedGo_delays A backend _ 1 _ i hi
  · intro A backend text hb
    exact ollamaEmbedGo_none_of_failure A backend hb _ 1 _
  · intro p hnul h2
    unfold sanitizeEmbeddingPrompt
    dsimp only
    rw [hnul]
    rw [if_pos ⟨by omega, by omega⟩]
    simp [List.length_take]
    omega
  · intro A backend fuel attempt prompt status body hresp hst hbody hlt
    conv_lhs => rw [ollamaEmbedGo]
    rw [hresp]
    dsimp only
    rw [if_pos ⟨hst, by simp [hbody], hlt⟩]

/-- Witness for `embed_truncation_halving_bounded_retries_linear_backoff`
at a concrete backend, prompt and attempt. -/
theorem embed_truncation_halving_bounded_retries_linear_backoff_witness :
    ((ollamaEmbed 4 alwaysContextLengthBackend (List.replicate 100 'a')).delays.getD 0 0
      = EMBEDDING_RETRY_BASE_DELAY_S * ((1 + 0 : ℕ) : ℚ)) ∧
    ((ollamaEmbed 4 alwaysContextLengthBackend (List.replicate 100 'a')).result = none) ∧
    ((sanitizeEmbeddingPrompt (List.replicate 10 'a')
        (max 1 ((List.replicate 10 'a' : List Char).length / 2))).length
      = (List.replicate 10 'a' : List Char).length / 2) :=
  ⟨embed_truncation_halving_bounded_retries_linear_backoff.2.2.2.2.1 4
      alwaysContextLengthBackend (List.replicate 100 'a') 0 (by decide),
   embed_truncation_halving_bounded_retries_linear_backoff.2.2.2.2.2.1 4
      alwaysContextLengthBackend (List.replicate 100 'a')
      (fun _ _ => trivial),
   embed_truncation_halving_bounded_retries_linear_backoff.2.2.2.2.2.2.1
      (List.replicate 10 'a') (by decide) (by decide)⟩

set_option maxRecDepth 20000 in
/-- C8 counterexample: with `EMBEDDING_RETRY_ATTEMPTS = 4` and a backend
that always reports a context-length error, the sleeps are
`0.25 s, 0.5 s, 0.75 s` — a linearly increasing schedule, not a geometric
("exponential backoff") one. -/
theorem embed_backoff_linear_not_geometric :
    (ollamaEmbed 4 alwaysContextLengthBackend (List.replicate 100 'a')).delays
      = [1/4, 1/2, 3/4] ∧
    ¬ IsGeometricBackoff
        (ollamaEmbed 4 alwaysContextLengthBackend
          (List.replicate 100 'a')).delays := by
  have hd : (ollamaEmbed 4 alwaysContextLengthBackend
      (List.replicate 100 'a')).delays = [1/4, 1/2, 3/4] := by
    have hlen : (ollamaEmbed 4 alwaysContextLengthBackend
        (List.replicate 100 'a')).delays.length = 3 := by decide
    refine List.ext_getElem (by rw [hlen]; rfl) ?_
    intro i h1 h2
    have hi3 : i < 3 := by rw [hlen] at h1; exact h1
    have hgi : (ollamaEmbed 4 alwaysContextLengthBackend
        (List.replicate 100 'a')).delays.getD i 0
          = EMBEDDING_RETRY_BASE_DELAY_S * ((1 + i : ℕ) : ℚ) :=
      ollamaEmbedGo_delays 4 alwaysContextLengthBackend (max 1 4) 1
        (sanitizeEmbeddingPrompt (List.replicate 100 'a') EMBEDDING_MAX_CHARS) i h1
    rw [List.getD_eq_getElem _ _ h1] at hgi
    rw [hgi]
    interval_cases i <;> norm_num [EMBEDDING_RETRY_BASE_DELAY_S]
  refine ⟨hd, ?_⟩
  intro h
  have h1 := h 0 (by rw [hd]; norm_num) (by rw [hd]; norm_num)
  rw [hd] at h1
  norm_num [List.getD] at h1

/-- C7: ingesting two files with identical bytes at different paths leaves
exactly one `raw_files` record — the content hash stays unique, the record
keeps the shared hash, and the later path wins as the canonical path with
the file metadata (filename, size, mtime) updated in place; the operations
reported are `new` then `updated`. -/
theorem content_dedup_last_path_wins (extract : ℕ → ExtractResult)
    (f1 f2 : FsFile) (hpath : f1.path ≠ f2.path)
    (hcontent : f1.content = f2.content) :
    (ingestPass extract [f1, f2] []).db.length = 1 ∧
    (∀ r ∈ (ingestPass extract [f1, f2] []).db,
      r.path = f2.path ∧ r.sha256 = f1.content ∧ r.filename = pathName f2.path
        ∧ r.size_bytes = f2.size ∧ r.mtime = f2.mtime) ∧
    (ingestPass extract [f1, f2] []).results = ["new", "updated"] := by
  by_cases hef : statusOfExtract (extract f1.content) = "extract_failed" <;>
  · refine ⟨?_, ?_, ?_⟩ <;>
      simp [ingestPass, ingestStep, ingestFile, cacheSkip, pathUnchangedSkip,
        dbFindByPath, dbFindBySha, dbSet, cachePut, cacheFromDb, toRec,
        reextractUpdate, shaMatchUpdate, hpath, hcontent, hef, List.find?]

/-- Witness for `content_dedup_last_path_wins` at the two concrete
duplicate files. -/
theorem content_dedup_last_path_wins_witness :
    (ingestPass sampleExtract [dupFileA, dupFileB] []).db.length = 1 ∧
    (∀ r ∈ (ingestPass sampleExtract [dupFileA, dupFileB] []).db,
      r.path = dupFileB.path ∧ r.sha256 = dupFileA.content
        ∧ r.filename = pathName dupFileB.path
        ∧ r.size_bytes = dupFileB.size ∧ r.mtime = dupFileB.mtime) ∧
    (ingestPass sampleExtract [dupFileA, dupFileB] []).results
      = ["new", "updated"] :=
  content_dedup_last_path_wins sampleExtract dupFileA dupFileB
    (by decide) (by decide)

/-- C6 counterexample: two unchanged trees whose second ingestion pass is
not all-skipped.  (a) A file whose extraction failed is stored as
`extract_failed` and re-extracted (reported `updated`) on the second pass
even though nothing changed.  (b) Two paths with identical bytes make every
pass re-point the canonical record (`updated`) to whichever path it scans
first. -/
theorem second_pass_not_always_skipped :
    (ingestPass sampleExtract [failFile]
      ((ingestPass sampleExtract [failFile] []).db)).results = ["updated"] ∧
    (ingestPass sampleExtract [failFile]
      ((ingestPass sampleExtract [failFile] []).db)).updatedCount = 1 ∧
    (ingestPass sampleExtract [dupFileA, dupFileB]
      ((ingestPass sampleExtract [dupFileA, dupFileB] []).db)).results
      = ["updated", "skipped"] := by
  refine ⟨by decide, by decide, by decide⟩

theorem cacheSkip_false_of_not_mem (cache : List (String × CacheEntry))
    (f : FsFile) (h : ∀ q ∈ cache, q.1 ≠ f.path) :
    cacheSkip (some cache) f = false := by
  have hfind : cache.find? (fun q => q.1 = f.path) = none :=
    List.find?_eq_none.mpr (by intro q hq; simpa using h q hq)
  simp [cacheSkip, hfind]

theorem dbFindByPath_none (db : List RawFileRec) (p : String)
    (h : ∀ r ∈ db, r.path ≠ p) : dbFindByPath db p = none :=
  List.find?_eq_none.mpr (by intro r hr; simpa using h r hr)

theorem dbFindBySha_none (db : List RawFileRec) (s : ℕ)
    (h : ∀ r ∈ db, r.sha256 ≠ s) : dbFindBySha db s = none :=
  List.find?_eq_none.mpr (by intro r hr; simpa using h r hr)

theorem ingestFile_new (extract : ℕ → ExtractResult) (db : List RawFileRec)
    (cache : List (String × CacheEntry)) (f : FsFile)
    (hc : cacheSkip (some cache) f = false)
    (hp : dbFindByPath db f.path = none)
    (hs : dbFindBySha db f.content = none) :
    ingestFile extract db (some cache) f false
      = ("new", db ++ [toRec extract f]) := by
  simp [ingestFile, hc, hp, hs, pathUnchangedSkip]

theorem ingestFile_fastskip (extract : ℕ → ExtractResult)
    (db : List RawFileRec) (cache : List (String × CacheEntry)) (f : FsFile)
    (hc : cacheSkip (some cache) f = true) :
    ingestFile extract db (some cache) f false = ("skipped", db) := by
  simp [ingestFile, hc]

theorem pass1_foldl (extract : ℕ → ExtractResult) :
    ∀ (files : List FsFile) (st : IngestPassState),
    (∀ f ∈ files, ∀ r ∈ st.db, r.path ≠ f.path ∧ r.sha256 ≠ f.content) →
    (∀ f ∈ files, ∀ q ∈ st.cache, q.1 ≠ f.path) →
    (files.map (fun f => f.path)).Nodup →
    (files.map (fun f => f.content)).Nodup →
    (files.foldl (ingestStep extract) st).db
        = st.db ++ files.map (toRec extract) ∧
    (files.foldl (ingestStep extract) st).results
        = st.results ++ files.map (fun _ => "new") ∧
    (files.foldl (ingestStep extract) st).cache
        = st.cache ++ files.map
            (fun f => (f.path, CacheEntry.mk f.mtime f.size none)) := by
  intro files
  induction files with
  | nil => intro st _ _ _ _; simp
  | cons f rest ih =>
    intro st hdb hcache hpaths hcontents
    have hstep : ingestFile extract st.db (some st.cache) f false
        = ("new", st.db ++ [toRec extract f]) := by
      refine ingestFile_new extract st.db st.cache f ?_ ?_ ?_
      · exact cacheSkip_false_of_not_mem _ _
          (fun q hq => hcache f (by simp) q hq)
      · exact dbFindByPath_none _ _ (fun r hr => (hdb f (by simp) r hr).1)
      · exact dbFindBySha_none _ _ (fun r hr => (hdb f (by simp) r hr).2)
    have hcput : cachePut st.cache f.path
        (CacheEntry.mk f.mtime f.size none)
        = st.cache ++ [(f.path, CacheEntry.mk f.mtime f.size none)] := by
      have hfind : st.cache.find? (fun q => q.1 = f.path) = none :=
        List.find?_eq_none.mpr
          (by intro q hq; simpa using hcache f (by simp) q hq)
      simp [cachePut, hfind]
    have hst' : (ingestStep extract st f) =
        { db := st.db ++ [toRec extract f]
          cache := st.cache ++ [(f.path, CacheEntry.mk f.mtime f.size none)]
          newCount := st.newCount + 1
          updatedCount := st.updatedCount
          skippedCount := st.skippedCount
          results := st.results ++ ["new"] } := by
      simp [ingestStep, hstep, hcput]
    have hfnotin : f.path ∉ rest.map (fun g => g.path) := by
      have := hpaths
      simp only [List.map_cons, List.nodup_cons] at this
      exact this.1
    have hcnotin : f.content ∉ rest.map (fun g => g.content) := by
      have := hcontents
      simp only [List.map_cons, List.nodup_cons] at this
      exact this.1
    have ihres := ih (ingestStep extract st f)
      (by
        intro g hg r hr
        rw [hst'] at hr
        simp only [List.mem_append, List.mem_singleton] at hr
        rcases hr with hr | hr
        · exact hdb g (by simp [hg]) r hr
        · subst hr
          constructor
          · simp only [toRec]
            intro hcontra
            exact hfnotin (by rw [hcontra]; exact List.mem_map_of_mem _ hg)
          · simp only [toRec]
            intro hcontra
            exact hcnotin (by rw [hcontra]; exact List.mem_map_of_mem _ hg))
      (by
        intro g hg q hq
        rw [hst'] at hq
        simp only [List.mem_append, List.mem_singleton] at hq
        rcases hq with hq | hq
        · exact hcache g (by simp [hg]) q hq
        · subst hq
          intro hcontra
          have hfp : f.path = g.path := hcontra
          exact hfnotin (by rw [hfp]; exact List.mem_map_of_mem _ hg))
      (by simpa using hpaths.of_cons)
      (by simpa using hcontents.of_cons)
    refine ⟨?_, ?_, ?_⟩
    · rw [List.foldl_cons, ihres.1, hst']
      simp
    · rw [List.foldl_cons, ihres.2.1, hst']
      simp
    · rw [List.foldl_cons, ihres.2.2, hst']
      simp

theorem cacheFromDb_find (extract : ℕ → ExtractResult) :
    ∀ (files : List FsFile) (f : FsFile), f ∈ files →
    (files.map (fun g => g.path)).Nodup →
    (∀ g ∈ files, statusOfExtract (extract g.content) = "ok") →
    (cacheFromDb (files.map (toRec extract))).find? (fun q => q.1 = f.path)
      = some (f.path, CacheEntry.mk f.mtime f.size (some "ok")) := by
  intro files
  induction files with
  | nil => intro f hf; cases hf
  | cons g rest ih =>
    intro f hf hnodup hok
    rcases List.mem_cons.mp hf with hfg | hfr
    · subst hfg
      simp [cacheFromDb, toRec, List.find?, hok f (by simp)]
    · have hgf : g.path ≠ f.path := by
        intro hcontra
        have : g.path ∈ rest.map (fun x => x.path) := by
          rw [hcontra]; exact List.mem_map_of_mem _ hfr
        simp only [List.map_cons, List.nodup_cons] at hnodup
        exact hnodup.1 this
      have ihr := ih f hfr (by simpa using hnodup.of_cons)
        (fun x hx => hok x (by simp [hx]))
      simpa [cacheFromDb, toRec, List.find?, hgf] using ihr

theorem pass2_foldl (extract : ℕ → ExtractResult) :
    ∀ (files : List FsFile) (st : IngestPassState),
    (∀ f ∈ files, st.cache.find? (fun q => q.1 = f.path)
      = some (f.path, CacheEntry.mk f.mtime f.size (some "ok"))) →
    files.foldl (ingestStep extract) st =
      { st with skippedCount := st.skippedCount + files.length
                results := st.results ++ files.map (fun _ => "skipped") } := by
  intro files
  induction files with
  | nil => intro st _; simp
  | cons f rest ih =>
    intro st hcache
    have hskip : cacheSkip (some st.cache) f = true := by
      simp [cacheSkip, hcache f (by simp)]
    have hstep : ingestStep extract st f =
        { st with skippedCount := st.skippedCount + 1
                  results := st.results ++ ["skipped"] } := by
      simp [ingestStep, ingestFile_fastskip extract st.db st.cache f hskip]
    rw [List.foldl_cons, hstep,
      ih _ (by intro g hg; exact hcache g (by simp [hg]))]
    simp only [List.length_cons, List.map_cons]
    congr 1
    · omega
    · simp

/-- C6 (amended): over a tree of distinct paths with pairwise-distinct
contents whose extractions all succeed (no stored `extract_failed` record),
a second ingestion pass with no filesystem changes is fully idempotent:
zero `new`, zero `updated`, every file `skipped`, and the table unchanged.
(The first pass inserts one `ok` record per file; trees violating those
side conditions are re-processed, see the counterexample.) -/
theorem ingest_second_pass_idempotent (extract : ℕ → ExtractResult)
    (files : List FsFile)
    (hpaths : (files.map (fun f => f.path)).Nodup)
    (hcontents : (files.map (fun f => f.content)).Nodup)
    (hok : ∀ f ∈ files, statusOfExtract (extract f.content) = "ok") :
    (ingestPass extract files []).db = files.map (toRec extract) ∧
    (ingestPass extract files []).results = files.map (fun _ => "new") ∧
    (ingestPass extract files ((ingestPass extract files []).db)).db
      = (ingestPass extract files []).db ∧
    (ingestPass extract files ((ingestPass extract files []).db)).newCount = 0 ∧
    (ingestPass extract files ((ingestPass extract files []).db)).updatedCount = 0 ∧
    (ingestPass extract files ((ingestPass extract files []).db)).results
      = files.map (fun _ => "skipped") := by
  have h1 := pass1_foldl extract files
    { db := [], cache := cacheFromDb [], newCount := 0, updatedCount := 0,
      skippedCount := 0, results := [] }
    (by intro f _ r hr; simp [cacheFromDb] at hr)
    (by intro f _ q hq; simp [cacheFromDb] at hq)
    hpaths hcontents
  have hdb1 : (ingestPass extract files []).db = files.map (toRec extract) := by
    simpa [ingestPass, cacheFromDb] using h1.1
  have h2 := pass2_foldl extract files
    { db := (ingestPass extract files []).db
      cache := cacheFromDb ((ingestPass extract files []).db)
      newCount := 0, updatedCount := 0, skippedCount := 0, results := [] }
    (by
      intro f hf
      simp only [hdb1]
      exact cacheFromDb_find extract files f hf hpaths hok)
  have h2' : ingestPass extract files ((ingestPass extract files []).db)
      = { db := (ingestPass extract files []).db
          cache := cacheFromDb ((ingestPass extract files []).db)
          newCount := 0
          updatedCount := 0
          skippedCount := 0 + files.length
          results := [] ++ files.map (fun _ => "skipped") } := h2
  refine ⟨hdb1, by simpa [ingestPass, cacheFromDb] using h1.2.1, ?_, ?_, ?_, ?_⟩ <;>
    rw [h2'] <;> simp

/-- Concrete successfully-extracting file for the idempotence witness. -/
def okFileC : FsFile := { path := "/docs/c.txt", mtime := 3, size := 6, content := 8 }

/-- Witness for `ingest_second_pass_idempotent` on a concrete two-file
tree. -/
theorem ingest_second_pass_idempotent_witness :
    (ingestPass sampleExtract [dupFileA, okFileC] []).db
      = [dupFileA, okFileC].map (toRec sampleExtract) ∧
    (ingestPass sampleExtract [dupFileA, okFileC] []).results
      = [dupFileA, okFileC].map (fun _ => "new") ∧
    (ingestPass sampleExtract [dupFileA, okFileC]
      ((ingestPass sampleExtract [dupFileA, okFileC] []).db)).db
      = (ingestPass sampleExtract [dupFileA, okFileC] []).db ∧
    (ingestPass sampleExtract [dupFileA, okFileC]
      ((ingestPass sampleExtract [dupFileA, okFileC] []).db)).newCount = 0 ∧
    (ingestPass sampleExtract [dupFileA, okFileC]
      ((ingestPass sampleExtract [dupFileA, okFileC] []).db)).updatedCount = 0 ∧
    (ingestPass sampleExtract [dupFileA, okFileC]
      ((ingestPass sampleExtract [dupFileA, okFileC] []).db)).results
      = [dupFileA, okFileC].map (fun _ => "skipped") :=
  ingest_second_pass_idempotent sampleExtract [dupFileA, okFileC]
    (by decide) (by decide) (by decide)

theorem takeWhile_replicate_not (p : Char → Bool) (c : Char)
    (hc : p c = false) (n : ℕ) :
    List.takeWhile p (List.replicate n c) = [] := by
  cases n with
  | zero => rfl
  | succ m => simp [List.replicate_succ, List.takeWhile_cons, hc]

theorem dropWhile_replicate_not (p : Char → Bool) (c : Char)
    (hc : p c = false) (n : ℕ) :
    List.dropWhile p (List.replicate n c) = List.replicate n c := by
  cases n with
  | zero => rfl
  | succ m => simp [List.replicate_succ, List.dropWhile_cons, hc]

theorem pyStrip_replicate (c : Char) (hc : pyIsSpace c = false) (n : ℕ) :
    pyStrip (List.replicate n c) = List.replicate n c := by
  unfold pyStrip
  rw [dropWhile_replicate_not _ _ hc, List.reverse_replicate,
    dropWhile_replicate_not _ _ hc, List.reverse_replicate]

theorem matchDNL_cons_ne {c : Char} (l : List Char) (hc : c ≠ '\n') :
    matchDNL (c :: l) = none := by
  simp [matchDNL, hc]

theorem matchSep_cons_ne {c : Char} (l : List Char) (hc : c ≠ '\n') :
    matchSep (c :: l) = none := by
  simp [matchSep, hc]

theorem matchSplit_cons_ne {c : Char} (l : List Char) (hc : c ≠ '\n') :
    matchSplit (c :: l) = none := by
  unfold matchSplit
  rw [matchSep_cons_ne l hc, matchDNL_cons_ne l hc]

theorem findSplitMatches_skip (fuel pos : ℕ) {c : Char} (l : List Char)
    (hc : c ≠ '\n') :
    findSplitMatches (fuel + 1) (c :: l) pos
      = findSplitMatches fuel l (pos + 1) := by
  simp [findSplitMatches, matchSplit_cons_ne l hc]

theorem findSplitMatches_replicate_skip {c : Char} (hc : c ≠ '\n') :
    ∀ (n fuel pos : ℕ) (s : List Char),
    findSplitMatches (n + fuel) (List.replicate n c ++ s) pos
      = findSplitMatches fuel s (pos + n) := by
  intro n
  induction n with
  | zero => intro fuel pos s; simp
  | succ m ih =>
    intro fuel pos s
    have h1 : m + 1 + fuel = (m + fuel) + 1 := by omega
    rw [h1, List.replicate_succ, List.cons_append,
      findSplitMatches_skip _ _ _ hc, ih]
    congr 1
    omega

theorem wsRunLen_nl_b (n : ℕ) :
    wsRunLen ('\n' :: List.replicate (n + 1) 'b') = 1 := by
  unfold wsRunLen
  rw [List.takeWhile_cons, takeWhile_replicate_not pyIsSpace 'b' (by decide)]
  simp [(show pyIsSpace '\n' = true from by decide)]

theorem matchSplit_dnl_b (n : ℕ) :
    matchSplit ('\n' :: '\n' :: List.replicate (n + 1) 'b') = some 2 := by
  have hsep : matchSep ('\n' :: '\n' :: List.replicate (n + 1) 'b') = none := by
    unfold matchSep
    dsimp only
    rw [if_pos rfl, wsRunLen_nl_b]
    rw [show List.drop 1 ('\n' :: List.replicate (n + 1) 'b')
      = List.replicate (n + 1) 'b' from rfl]
    rw [List.replicate_succ]
    simp [(show sepRunChar 'b' = false from by decide)]
  have hdnl : matchDNL ('\n' :: '\n' :: List.replicate (n + 1) 'b') = some 2 := by
    unfold matchDNL
    dsimp only
    rw [if_pos rfl, wsRunLen_nl_b]
    simp [lastNlIdx]
  unfold matchSplit
  rw [hsep, hdnl]

theorem findSplitMatches_nil (fuel pos : ℕ) :
    findSplitMatches (fuel + 1) [] pos = [] := rfl

theorem findSplitMatches_nl_nl_b (fuel pos n : ℕ) :
    findSplitMatches (fuel + 1) ('\n' :: '\n' :: List.replicate (n + 1) 'b') pos
      = (pos, pos + 2) :: findSplitMatches fuel (List.replicate (n + 1) 'b')
          (pos + 2) := by
  conv_lhs => rw [findSplitMatches, matchSplit_dnl_b n]
  rfl

theorem findSplitMatches_overlapDoc :
    findSplitMatches (overlapDoc.length + 1) overlapDoc 0 = [(200, 202)] := by
  have hlen : overlapDoc.length + 1 = 200 + 4003 := by
    rw [overlapDoc, List.length_append, List.length_replicate,
      List.length_cons, List.length_cons, List.length_replicate]
  rw [hlen, overlapDoc, findSplitMatches_replicate_skip (by decide) 200 4003 0]
  rw [show (4003 : ℕ) = 4002 + 1 from rfl,
    show (4000 : ℕ) = 3999 + 1 from rfl, findSplitMatches_nl_nl_b]
  rw [show (4002 : ℕ) = (3999 + 1) + 2 from rfl,
    ← List.append_nil (List.replicate (3999 + 1) 'b'),
    findSplitMatches_replicate_skip (by decide) (3999 + 1) 2 (0 + 200 + 2)]
  rw [show (2 : ℕ) = 1 + 1 from rfl, findSplitMatches_nil]

theorem buildRawSegments_overlapDoc :
    buildRawSegments overlapDoc =
      [⟨List.replicate 200 'a', 0, 200⟩,
       ⟨List.replicate 4000 'b', 202, 4202⟩] := by
  unfold buildRawSegments
  rw [findSplitMatches_overlapDoc]
  have htake : List.take (200 - 0) (List.drop 0 overlapDoc)
      = List.replicate 200 'a' := by
    rw [List.drop_zero, overlapDoc,
      show (200 : ℕ) - 0 = (List.replicate 200 'a').length from by
        rw [List.length_replicate],
      List.take_left]
  have hdrop : List.drop 202 overlapDoc = List.replicate 4000 'b' := by
    rw [overlapDoc,
      show (202 : ℕ) = (List.replicate 200 'a').length + 2 from by
        rw [List.length_replicate],
      List.drop_append]
    rfl
  have hlen : overlapDoc.length = 4202 := by
    rw [overlapDoc, List.length_append, List.length_replicate,
      List.length_cons, List.length_cons, List.length_replicate]
  simp only [List.foldl_cons, List.foldl_nil, htake, hdrop, hlen,
    pyStrip_replicate 'a' (by decide), pyStrip_replicate 'b' (by decide),
    List.length_replicate]
  norm_num [MIN_ENTRY_LENGTH]

set_option maxRecDepth 8000 in
theorem heuristicSplit_overlapDoc_lengths :
    (heuristicSplit id overlapDoc false false).map (fun s => s.text.length)
      = [200, 4208] := by
  unfold heuristicSplit
  dsimp only
  simp only [Bool.false_eq_true, if_false]
  rw [buildRawSegments_overlapDoc]
  rw [show ([(⟨List.replicate 200 'a', 0, 200⟩ : RawSeg),
      ⟨List.replicate 4000 'b', 202, 4202⟩]).enum
      = [(0, (⟨List.replicate 200 'a', 0, 200⟩ : RawSeg)),
         (1, ⟨List.replicate 4000 'b', 202, 4202⟩)] from rfl]
  rw [List.foldl_cons, List.foldl_cons, List.foldl_nil]
  unfold processSegment
  dsimp only
  simp only [Bool.false_eq_true, if_false, false_and, List.length_replicate]
  rw [if_neg (show ¬ ((200 : ℕ) > MAX_ENTRY_LENGTH) from by decide),
    if_neg (show ¬ (OVERLAP_LENGTH > 0 ∧ (0 : ℕ) > 0) from by decide),
    if_neg (show ¬ ((4000 : ℕ) > MAX_ENTRY_LENGTH) from by decide),
    if_pos (show OVERLAP_LENGTH > 0 ∧ (1 : ℕ) > 0 from by decide)]
  rw [show (1 : ℕ) - 1 = 0 from rfl]
  simp only [List.get?_cons_zero, Option.map_some', Option.getD_some,
    List.length_replicate]
  rw [if_neg (show ¬ ((200 : ℕ) > OVERLAP_LENGTH) from by decide)]
  simp only [List.nil_append, List.map_cons, List.map_nil,
    List.length_append, List.length_replicate, List.length_cons,
    List.length_nil]
  norm_num

theorem mem_of_getLast?_eq {α : Type} (l : List α) (a : α)
    (h : l.getLast? = some a) : a ∈ l := by
  have hm : a ∈ l.getLast? := by rw [h]; rfl
  obtain ⟨hne, heq⟩ := List.mem_getLast?_eq_getLast hm
  rw [heq]
  exact List.getLast_mem hne

theorem pyStrip_length_le (l : List Char) : (pyStrip l).length ≤ l.length := by
  unfold pyStrip
  calc ((l.dropWhile pyIsSpace).reverse.dropWhile pyIsSpace).reverse.length
      = ((l.dropWhile pyIsSpace).reverse.dropWhile pyIsSpace).length := by
        rw [List.length_reverse]
    _ ≤ (l.dropWhile pyIsSpace).reverse.length :=
        (List.dropWhile_sublist _).length_le
    _ = (l.dropWhile pyIsSpace).length := by rw [List.length_reverse]
    _ ≤ l.length := (List.dropWhile_sublist _).length_le

theorem lastTwoCharMatch_le (cls : Char → Bool) (w : List Char) (e : ℕ)
    (h : lastTwoCharMatch cls w = some e) : e ≤ w.length := by
  unfold lastTwoCharMatch at h
  obtain ⟨i, hi, hie⟩ := Option.map_eq_some'.mp h
  have hmem := mem_of_getLast?_eq _ _ hi
  obtain ⟨p, hp, hpi⟩ := List.mem_map.mp hmem
  have hpf := List.mem_filter.mp hp
  have hcond := hpf.2
  simp only [decide_eq_true_eq, Bool.and_eq_true] at hcond
  cases hg : w.get? (p.1 + 1) with
  | none =>
    rw [hg] at hcond
    simp at hcond
  | some d =>
    obtain ⟨hlt, _⟩ := List.get?_eq_some.mp hg
    omega

theorem lastNlMatch_le (w : List Char) (e : ℕ)
    (h : lastNlMatch w = some e) : e ≤ w.length := by
  unfold lastNlMatch at h
  obtain ⟨i, hi, hie⟩ := Option.map_eq_some'.mp h
  have hmem := mem_of_getLast?_eq _ _ hi
  obtain ⟨p, hp, hpi⟩ := List.mem_map.mp hmem
  have hpe := (List.mem_filter.mp hp).1
  have := List.mem_enum hpe
  omega

theorem findLastBoundary_le (w : List Char) (e : ℕ)
    (h : findLastBoundary w = some e) : e ≤ w.length := by
  unfold findLastBoundary at h
  cases h1 : lastTwoCharMatch (fun c => c = '.' ∨ c = '!' ∨ c = '?') w with
  | some x =>
    rw [h1] at h
    cases h
    exact lastTwoCharMatch_le _ _ _ h1
  | none =>
    rw [h1] at h
    cases h2 : lastNlMatch w with
    | some x =>
      rw [h2] at h
      cases h
      exact lastNlMatch_le _ _ h2
    | none =>
      rw [h2] at h
      cases h3 : lastTwoCharMatch (fun c => c = ',') w with
      | some x =>
        rw [h3] at h
        cases h
        exact lastTwoCharMatch_le _ _ _ h3
      | none =>
        rw [h3] at h
        exact lastTwoCharMatch_le _ _ _ h

theorem splitLargeLoop_le (m : ℕ) :
    ∀ (fuel : ℕ) (l : List Char), ∀ c ∈ splitLargeLoop m fuel l,
      c.length ≤ m := by
  intro fuel
  induction fuel with
  | zero => intro l c hc; simp [splitLargeLoop] at hc
  | succ n ih =>
    intro l c hc
    unfold splitLargeLoop at hc
    by_cases h0 : l.length = 0
    · rw [if_pos h0] at hc
      cases hc
    · rw [if_neg h0] at hc
      by_cases hle : l.length ≤ m
      · rw [if_pos hle] at hc
        dsimp only at hc
        split_ifs at hc with hstrip
        · cases hc
        · rw [List.mem_singleton] at hc
          subst hc
          exact le_trans (pyStrip_length_le l) hle
      · rw [if_neg hle] at hc
        dsimp only at hc
        have hbb : (match findLastBoundary ((l.drop (m / 2)).take (m - m / 2)) with
            | some e => m / 2 + e
            | none => m) ≤ m := by
          cases hb : findLastBoundary ((l.drop (m / 2)).take (m - m / 2)) with
          | some e =>
            have hle2 := findLastBoundary_le _ _ hb
            rw [List.length_take] at hle2
            have : e ≤ m - m / 2 := le_trans hle2 (min_le_left _ _)
            show m / 2 + e ≤ m
            omega
          | none => exact le_refl m
        split_ifs at hc with hzero
        · exact ih _ c hc
        · rcases List.mem_cons.mp hc with hc | hc
          · subst hc
            refine le_trans (pyStrip_length_le _) ?_
            rw [List.length_take]
            exact le_trans (min_le_left _ _) hbb
          · exact ih _ c hc

theorem splitLargeSegment_le (t : List Char) (m : ℕ) (ht : m < t.length) :
    ∀ c ∈ splitLargeSegment t m, c.length ≤ m := by
  unfold splitLargeSegment
  rw [if_neg (by omega)]
  exact splitLargeLoop_le m _ t

theorem processSegment_false_bound (cbs : List CodeBlock) (text : List Char)
    (rawSegments : List RawSeg) (i : ℕ) (seg : RawSeg) :
    ∀ s ∈ processSegment false cbs text rawSegments i seg,
      s.text.length ≤ MAX_ENTRY_LENGTH + OVERLAP_LENGTH + 8 := by
  unfold processSegment
  dsimp only
  simp only [Bool.false_eq_true, if_false, false_and]
  intro s hs
  by_cases h1 : seg.text.length > MAX_ENTRY_LENGTH
  · rw [if_pos h1] at hs
    obtain ⟨chunk, hchunk, hseq⟩ := List.mem_map.mp hs
    subst hseq
    have hb := splitLargeSegment_le seg.text MAX_ENTRY_LENGTH (by omega)
      chunk hchunk
    dsimp only
    omega
  · rw [if_neg h1] at hs
    rw [List.mem_singleton] at hs
    subst hs
    dsimp only
    push_neg at h1
    by_cases h2 : OVERLAP_LENGTH > 0 ∧ i > 0
    · rw [if_pos h2]
      by_cases h3 : (((rawSegments.get? (i - 1)).map (fun s => s.text)).getD
          []).length > OVERLAP_LENGTH
      · rw [if_pos h3]
        simp only [List.length_append, List.length_drop, List.length_cons,
          List.length_nil]
        unfold MAX_ENTRY_LENGTH OVERLAP_LENGTH at *
        omega
      · rw [if_neg h3]
        push_neg at h3
        simp only [List.length_append, List.length_cons, List.length_nil]
        unfold MAX_ENTRY_LENGTH OVERLAP_LENGTH at *
        omega
    · rw [if_neg h2]
      omega

theorem heuristicSplit_foldl_bound (P : RawSeg → Prop)
    (f : ℕ × RawSeg → List RawSeg) (hf : ∀ p, ∀ s ∈ f p, P s) :
    ∀ (ps : List (ℕ × RawSeg)) (acc : List RawSeg), (∀ s ∈ acc, P s) →
    ∀ s ∈ ps.foldl (fun acc p => acc ++ f p) acc, P s := by
  intro ps
  induction ps with
  | nil => intro acc hacc s hs; exact hacc s hs
  | cons p rest ih =>
    intro acc hacc s hs
    rw [List.foldl_cons] at hs
    refine ih (acc ++ f p) ?_ s hs
    intro t ht
    rcases List.mem_append.mp ht with ht | ht
    · exact hacc t ht
    · exact hf p t ht

/-- C3 (amended): for every non-markdown input (any HTML stripping, any
text), every chunk produced by `heuristic_split` is at most
`MAX_ENTRY_LENGTH + OVERLAP_LENGTH + 8` characters long — oversized
segments are split at the best boundary searched from the midpoint (to at
most `MAX_ENTRY_LENGTH`), and overlap prefixing adds at most
`OVERLAP_LENGTH` characters of overlap plus the 8-character `"[...] "`
marker and blank line.  (Markdown code-block restoration can exceed any
fixed bound, see the counterexample's amendment.) -/
theorem segmentation_chunk_length_bound (stripHtmlFn : List Char → List Char)
    (text : List Char) (is_html : Bool) :
    ∀ seg ∈ heuristicSplit stripHtmlFn text is_html false,
      seg.text.length ≤ MAX_ENTRY_LENGTH + OVERLAP_LENGTH + 8 := by
  unfold heuristicSplit
  dsimp only
  simp only [Bool.false_eq_true, if_false]
  intro seg hseg
  exact heuristicSplit_foldl_bound _ _
    (fun p => processSegment_false_bound _ _ _ p.1 p.2) _ []
    (by intro s hs; cases hs) seg hseg

set_option maxRecDepth 100000 in
/-- Witness for `segmentation_chunk_length_bound` on a concrete two-
paragraph document. -/
theorem segmentation_chunk_length_bound_witness :
    (⟨paraP, 0, 60⟩ : RawSeg).text.length
      ≤ MAX_ENTRY_LENGTH + OVERLAP_LENGTH + 8 :=
  segmentation_chunk_length_bound id twoParaDoc false ⟨paraP, 0, 60⟩
    (by decide)

/-- C3 counterexample: on a plain-text document of a 200-character
paragraph and a 4000-character paragraph, the second produced chunk is 4208
characters long — the `"[...] "` marker and blank line push overlap
prefixing 8 characters past `MAX_ENTRY_LENGTH + OVERLAP_LENGTH`. -/
theorem overlap_prefix_exceeds_max_plus_overlap :
    ∃ seg ∈ heuristicSplit id overlapDoc false false,
      MAX_ENTRY_LENGTH + OVERLAP_LENGTH < seg.text.length := by
  have h := heuristicSplit_overlapDoc_lengths
  match hsplit : heuristicSplit id overlapDoc false false with
  | [] => rw [hsplit] at h; simp at h
  | [s] => rw [hsplit] at h; simp at h
  | s0 :: s1 :: rest =>
    rw [hsplit] at h
    simp only [List.map_cons] at h
    refine ⟨s1, by simp, ?_⟩
    have h1 : s1.text.length = 4208 := by
      have := congrArg (fun l => l.get? 1) h
      simpa using this
    rw [h1]
    norm_num [MAX_ENTRY_LENGTH, OVERLAP_LENGTH]


theorem pyStrip_eq_nil_of_all_space (l : List Char) (h : ∀ c ∈ l, pyIsSpace c) :
    pyStrip l = [] := by
  unfold pyStrip
  rw [List.dropWhile_eq_nil_iff.mpr h]
  rfl

theorem extractCodeBlocksGo_no_backtick :
    ∀ (fuel : ℕ) (l : List Char) (idx : ℕ), '\x60' ∉ l →
      extractCodeBlocksGo fuel l idx = (l, []) := by
  intro fuel
  induction fuel with
  | zero => intro l idx _; rfl
  | succ n ih =>
    intro l idx h
    match l with
    | [] => rfl
    | c :: rest =>
      have hc : c ≠ '\x60' := fun hce => h (hce ▸ List.mem_cons_self c rest)
      have hpre : "```".data.isPrefixOf (c :: rest) = false := by
        show List.isPrefixOf _ _ = false
        simp [List.isPrefixOf, Ne.symm hc]
      have hrest : '\x60' ∉ rest := fun hm => h (List.mem_cons_of_mem c hm)
      conv_lhs => rw [extractCodeBlocksGo]
      rw [if_neg (by simp [hpre])]
      rw [ih rest idx hrest]

theorem extractCodeBlocks_all_space (l : List Char) (h : ∀ c ∈ l, pyIsSpace c) :
    extractCodeBlocks l = (l, []) := by
  apply extractCodeBlocksGo_no_backtick
  intro hm
  exact absurd (h _ hm) (by decide)

theorem all_space_slice (t : List Char) (h : ∀ c ∈ t, pyIsSpace c) (a b : ℕ) :
    ∀ c ∈ (t.drop a).take b, pyIsSpace c :=
  fun c hc => h c (List.mem_of_mem_drop (List.mem_of_mem_take hc))

theorem buildRawSegments_foldl_nil (t : List Char) (h : ∀ c ∈ t, pyIsSpace c) :
    ∀ (ms : List (ℕ × ℕ)) (st : ℕ × List RawSeg), st.2 = [] →
      (ms.foldl (fun st m =>
        (m.2,
          if (pyStrip ((t.drop st.1).take (m.1 - st.1))).length ≥ MIN_ENTRY_LENGTH
          then st.2 ++ [⟨pyStrip ((t.drop st.1).take (m.1 - st.1)), st.1, m.1⟩]
          else st.2)) st).2 = [] := by
  intro ms
  induction ms with
  | nil => intro st hst; exact hst
  | cons m ms ih =>
    intro st hst
    rw [List.foldl_cons]
    apply ih
    show (if (pyStrip ((t.drop st.1).take (m.1 - st.1))).length ≥ MIN_ENTRY_LENGTH
        then st.2 ++ [⟨pyStrip ((t.drop st.1).take (m.1 - st.1)), st.1, m.1⟩]
        else st.2) = []
    rw [pyStrip_eq_nil_of_all_space _ (all_space_slice t h _ _)]
    rw [if_neg (by decide)]
    exact hst

theorem buildRawSegments_all_space (t : List Char) (h : ∀ c ∈ t, pyIsSpace c) :
    buildRawSegments t = [] := by
  unfold buildRawSegments
  dsimp only
  have h2 := buildRawSegments_foldl_nil t h
    (findSplitMatches (t.length + 1) t 0) (0, []) rfl
  split_ifs with hlt hkeep
  · exfalso
    rw [pyStrip_eq_nil_of_all_space _
      (fun c hc => h c (List.mem_of_mem_drop hc))] at hkeep
    exact absurd hkeep (by decide)
  · exact h2
  · exact h2

theorem heuristicSplit_all_space (f : List Char → List Char)
    (raw : List Char) (im : Bool) (h : ∀ c ∈ raw, pyIsSpace c) :
    heuristicSplit f raw false im = [] := by
  unfold heuristicSplit
  dsimp only
  simp only [Bool.false_eq_true, if_false]
  cases im with
  | false =>
    simp only [Bool.false_eq_true, if_false]
    rw [buildRawSegments_all_space raw h]
    rfl
  | true =>
    simp only [if_true]
    rw [extractCodeBlocks_all_space raw h]
    dsimp only
    rw [buildRawSegments_all_space raw h]
    rfl

theorem segmentsOf_all_space (f : List Char → List Char) (ext raw : List Char)
    (hh : ¬ pyLower ext = ".html".data) (hh2 : ¬ pyLower ext = ".htm".data)
    (h : ∀ c ∈ raw, pyIsSpace c) :
    segmentsOf f ext raw = [] := by
  unfold segmentsOf
  dsimp only
  have hor : (pyLower ext = ".html".data ∨ pyLower ext = ".htm".data) = False := by
    simp [hh, hh2]
  simp only [hor, decide_False]
  rw [heuristicSplit_all_space f raw _ h]
  rw [if_pos rfl]
  rw [pyStrip_eq_nil_of_all_space raw h]
  rw [if_neg (by decide)]

theorem segmentFileEntries_all_space (f : List Char → List Char)
    (archive : List (List Char)) (ext raw : List Char)
    (hh : ¬ pyLower ext = ".html".data) (hh2 : ¬ pyLower ext = ".htm".data)
    (h : ∀ c ∈ raw, pyIsSpace c) :
    segmentFileEntries f archive ext raw = [] := by
  unfold segmentFileEntries
  rw [segmentsOf_all_space f ext raw hh hh2 h]
  rfl

theorem segmentsOf_fallback (f : List Char → List Char) (ext raw : List Char)
    (hempty : ∀ ih im : Bool, heuristicSplit f raw ih im = [])
    (h : 0 < (pyStrip raw).length) :
    segmentsOf f ext raw = [⟨pyStrip raw, 0, raw.length⟩] := by
  unfold segmentsOf
  dsimp only
  rw [hempty]
  rw [if_pos rfl, if_pos h]

theorem segmentsOf_ne_nil (f : List Char → List Char) (ext raw : List Char)
    (h : 0 < (pyStrip raw).length) : segmentsOf f ext raw ≠ [] := by
  unfold segmentsOf
  dsimp only
  split_ifs with h1
  · simp
  · exact h1

theorem segmentFileEntries_ne_nil (f : List Char → List Char)
    (ext raw : List Char) (h : 0 < (pyStrip raw).length) :
    segmentFileEntries f [] ext raw ≠ [] := by
  intro hcon
  apply segmentsOf_ne_nil f ext raw h
  unfold segmentFileEntries at hcon
  rw [List.map_eq_nil_iff] at hcon
  rw [List.filter_eq_self.mpr (by intro a _; simp)] at hcon
  exact List.enum_eq_nil.mp hcon

theorem buildRawSegments_foldl_min (t : List Char) :
    ∀ (ms : List (ℕ × ℕ)) (st : ℕ × List RawSeg),
      (∀ s ∈ st.2, MIN_ENTRY_LENGTH ≤ s.text.length) →
      ∀ s ∈ (ms.foldl (fun st m =>
        (m.2,
          if (pyStrip ((t.drop st.1).take (m.1 - st.1))).length ≥ MIN_ENTRY_LENGTH
          then st.2 ++ [⟨pyStrip ((t.drop st.1).take (m.1 - st.1)), st.1, m.1⟩]
          else st.2)) st).2,
        MIN_ENTRY_LENGTH ≤ s.text.length := by
  intro ms
  induction ms with
  | nil => intro st hst s hs; exact hst s hs
  | cons m ms ih =>
    intro st hst s hs
    rw [List.foldl_cons] at hs
    refine ih _ ?_ s hs
    intro s' hs'
    have hs2 : s' ∈ (if (pyStrip ((t.drop st.1).take (m.1 - st.1))).length
          ≥ MIN_ENTRY_LENGTH
        then st.2 ++ [⟨pyStrip ((t.drop st.1).take (m.1 - st.1)), st.1, m.1⟩]
        else st.2) := hs'
    split_ifs at hs2 with hkeep
    · rcases List.mem_append.mp hs2 with h1 | h1
      · exact hst s' h1
      · rw [List.mem_singleton] at h1
        subst h1
        exact hkeep
    · exact hst s' hs2

theorem buildRawSegments_min (t : List Char) :
    ∀ s ∈ buildRawSegments t, MIN_ENTRY_LENGTH ≤ s.text.length := by
  intro s hs
  unfold buildRawSegments at hs
  dsimp only at hs
  have key := buildRawSegments_foldl_min t
    (findSplitMatches (t.length + 1) t 0) (0, []) (by intro s' hs'; cases hs')
  split_ifs at hs with hlt hkeep
  · rcases List.mem_append.mp hs with h1 | h1
    · exact key s h1
    · rw [List.mem_singleton] at h1
      subst h1
      exact hkeep
  · exact key s hs
  · exact key s hs

/-- C10: `heuristic_split` keeps only primary segments whose stripped text
has at least `MIN_ENTRY_LENGTH` (50) characters; when no segment survives,
`segment_file` falls back to the whole stripped text as a single entry if
it is non-empty after stripping; a whitespace-only non-HTML document
produces zero entries; and a document whose stripped text is non-empty
produces at least one entry against an empty archive. -/
theorem min_length_filter_whole_text_fallback_blank_empty :
    (∀ t : List Char, ∀ s ∈ buildRawSegments t,
      MIN_ENTRY_LENGTH ≤ s.text.length) ∧
    (∀ (f : List Char → List Char) (ext raw : List Char),
      (∀ ih im : Bool, heuristicSplit f raw ih im = []) →
      0 < (pyStrip raw).length →
      segmentsOf f ext raw = [⟨pyStrip raw, 0, raw.length⟩]) ∧
    (∀ (f : List Char → List Char) (archive : List (List Char))
        (ext raw : List Char),
      ¬ pyLower ext = ".html".data → ¬ pyLower ext = ".htm".data →
      (∀ c ∈ raw, pyIsSpace c) →
      segmentFileEntries f archive ext raw = []) ∧
    (∀ (f : List Char → List Char) (ext raw : List Char),
      0 < (pyStrip raw).length → segmentFileEntries f [] ext raw ≠ []) :=
  ⟨buildRawSegments_min, segmentsOf_fallback, segmentFileEntries_all_space,
   segmentFileEntries_ne_nil⟩

set_option maxRecDepth 100000 in
/-- Witness for `min_length_filter_whole_text_fallback_blank_empty` on
concrete documents: a 60-character paragraph, a 5-character document (all
primary segments discarded, whole-text fallback), a whitespace-only
document, and the paragraph again against an empty archive. -/
theorem min_length_filter_whole_text_fallback_blank_empty_witness :
    MIN_ENTRY_LENGTH ≤ ((⟨paraP, 0, 60⟩ : RawSeg)).text.length ∧
    segmentsOf id ".txt".data "short".data =
      [⟨pyStrip "short".data, 0, ("short".data).length⟩] ∧
    segmentFileEntries id [] ".txt".data "  \n ".data = [] ∧
    segmentFileEntries id [] ".txt".data paraP ≠ [] :=
  ⟨min_length_filter_whole_text_fallback_blank_empty.1 paraP ⟨paraP, 0, 60⟩
      (by decide),
   min_length_filter_whole_text_fallback_blank_empty.2.1 id ".txt".data
      "short".data (by decide) (by decide),
   min_length_filter_whole_text_fallback_blank_empty.2.2.1 id [] ".txt".data
      "  \n ".data (by decide) (by decide) (by decide),
   min_length_filter_whole_text_fallback_blank_empty.2.2.2 id ".txt".data paraP
      (by decide)⟩

/-- C4 (amended): `segment_file`'s duplicate query tests a new chunk's
content hash only against previously committed entries — every inserted
row's hash is absent from the committed archive, and re-segmenting the
same document against the archive its own first run committed inserts
nothing.  Rows created in the same batch are not deduplicated against each
other (see the counterexample). -/
theorem chunk_dedup_only_against_committed_archive :
    (∀ (f : List Char → List Char) (archive : List (List Char))
        (ext raw : List Char), ∀ e ∈ segmentFileEntries f archive ext raw,
      ¬ e.content_hash ∈ archive) ∧
    (∀ (f : List Char → List Char) (ext raw : List Char),
      segmentFileEntries f
        ((segmentFileEntries f [] ext raw).map (fun r => r.content_hash))
        ext raw = []) := by
  constructor
  · intro f archive ext raw e he
    unfold segmentFileEntries at he
    obtain ⟨p, hp, hpe⟩ := List.mem_map.mp he
    obtain ⟨hmem, hfilt⟩ := List.mem_filter.mp hp
    subst hpe
    exact of_decide_eq_true hfilt
  · intro f ext raw
    unfold segmentFileEntries
    rw [List.map_eq_nil_iff, List.filter_eq_nil_iff]
    intro p hp
    simp only [decide_eq_true_eq, not_not]
    rw [List.map_map]
    rw [List.filter_eq_self.mpr (by intro a _; simp)]
    exact List.mem_map_of_mem _ hp

set_option maxRecDepth 100000 in
/-- Witness for `chunk_dedup_only_against_committed_archive`: the single
entry segmented from a 60-character paragraph has a hash outside a
one-element archive, and re-segmenting the paragraph against its own first
run's hashes inserts nothing. -/
theorem chunk_dedup_only_against_committed_archive_witness :
    ¬ (⟨0, 0, 60, paraP, paraP, "pending"⟩ : EntryRow).content_hash ∈
        ([[' ']] : List (List Char)) ∧
      segmentFileEntries id
        ((segmentFileEntries id [] ".txt".data paraP).map
          (fun r => r.content_hash)) ".txt".data paraP = [] :=
  ⟨chunk_dedup_only_against_committed_archive.1 id [[' ']] ".txt".data paraP
      ⟨0, 0, 60, paraP, paraP, "pending"⟩ (by decide),
   chunk_dedup_only_against_committed_archive.2 id ".txt".data paraP⟩

set_option maxRecDepth 100000 in
/-- C4 counterexample: segmenting a plain-text document of two
byte-identical 60-character paragraphs against an empty archive stores two
entries, not one (the second acquires an overlap prefix, changing its
hash); with three identical paragraphs, entries 1 and 2 have identical
normalized text — equal content hashes — and are still both stored,
because rows created in the same batch never see each other in the
duplicate query. -/
theorem identical_paragraphs_stored_twice :
    (segmentFileEntries id [] ".txt".data twoParaDoc).length = 2 ∧
    (segmentFileEntries id [] ".txt".data threeParaDoc).length = 3 ∧
    ((segmentFileEntries id [] ".txt".data threeParaDoc).getD 1
        ⟨0, 0, 0, [], [], ""⟩).content_hash =
      ((segmentFileEntries id [] ".txt".data threeParaDoc).getD 2
        ⟨0, 0, 0, [], [], ""⟩).content_hash := by
  refine ⟨by decide, by decide, by decide⟩

end DocMgr
